import Mathlib

/-!
# Renogy battery Modbus codec (`renogy_battery_utilities.h`)

A shallow embedding of the request builder `GetBatteryRequest` and of the
response decoder `HandleBatteryData`, followed by the properties proved
about them.

Conventions of the embedding:

* a byte buffer (`vector<uint8_t>`) is a `List Nat`; a read reduces the
  element modulo 256;
* an `enum class` is a structure carrying its underlying `int` value, so
  that values outside the enumerators are representable, as in C++;
* `static_cast<uint16_t>` is `% 65536`;
* a read of `x[i]` with `i` outside the buffer is undefined behaviour in
  C++; the embedding stops there with `Except.error i`;
* `float` is IEEE-754 binary32 with round-to-nearest-even, see `F32`.
-/

namespace Renogy

/-! ## Enumerations -/

/-- The `enum class BatterySection`; `val` is the underlying integer. -/
structure BatterySection where
  val : Int
  deriving DecidableEq, Repr

namespace BatterySection
def CELL_VOLT_INFO : BatterySection := ⟨5000⟩
def CELL_TEMP_INFO : BatterySection := ⟨5017⟩
def BATTERY_INFO : BatterySection := ⟨5042⟩
def DEVICE_INFO : BatterySection := ⟨5122⟩
def DEVICE_ADDRESS : BatterySection := ⟨5223⟩
end BatterySection

/-- The `enum class BatterySectionWords`; `val` is the underlying integer. -/
structure BatterySectionWords where
  val : Int
  deriving DecidableEq, Repr

namespace BatterySectionWords
def CELL_VOLT_INFO : BatterySectionWords := ⟨17⟩
def CELL_TEMP_INFO : BatterySectionWords := ⟨17⟩
def BATTERY_INFO : BatterySectionWords := ⟨6⟩
def DEVICE_INFO : BatterySectionWords := ⟨8⟩
def DEVICE_ADDRESS : BatterySectionWords := ⟨1⟩
end BatterySectionWords

/-- The `enum class ModbusFunction`, as the byte values it is cast to. -/
def ModbusFunction.READ : Nat := 0x03
def ModbusFunction.WRITE : Nat := 0x06

/-- The conversion `static_cast<uint16_t>(v)` of an `int`. -/
def toU16 (v : Int) : Nat := (v % 65536).toNat

/-! ## CRC-16 -/

/-- Modelled from the spec: one of the 8 shift steps of the Modbus CRC-16
(the routine `crc16` is a helper of the host framework and is not part of
the source file). "LSB-first bit processing ... polynomial 0xA001": shift
right, and XOR `0xA001` in when the bit shifted out is 1. -/
def crc16Bit (crc : Nat) : Nat :=
  if crc &&& 1 ≠ 0 then (crc >>> 1) ^^^ 0xA001 else crc >>> 1

/-- Modelled from the spec: the per-byte step of the Modbus CRC-16 ("one
byte at a time via an iterative XOR/shift over each of the 8 bits"). -/
def crc16Byte (crc : Nat) (b : Nat) : Nat :=
  crc16Bit (crc16Bit (crc16Bit (crc16Bit (crc16Bit (crc16Bit (crc16Bit (crc16Bit
    (crc ^^^ (b % 256)))))))))

/-- Modelled from the spec: `crc16(data, len)`, the "standard Modbus CRC-16
(polynomial 0xA001, initial register 0xFFFF, LSB-first bit processing)"
over the whole buffer. The routine itself is missing from the source. -/
def crc16 (data : List Nat) : Nat :=
  data.foldl crc16Byte 0xFFFF

/-! ## Request builder -/

/-- The function `GetBatteryRequest` with all three arguments given. -/
def GetBatteryRequest (batteryNumber : Nat) (section_ : BatterySection)
    (words : BatterySectionWords) : List Nat :=
  let sectionInt := toU16 section_.val
  let wordsInt := toU16 words.val
  let dataBytes : List Nat :=
    [ batteryNumber % 256,
      ModbusFunction.READ % 256,
      ((sectionInt >>> 8) &&& 0xFF) % 256,
      ((sectionInt >>> 0) &&& 0xFF) % 256,
      ((wordsInt >>> 8) &&& 0xFF) % 256,
      ((wordsInt >>> 0) &&& 0xFF) % 256 ]
  let checksum := crc16 dataBytes % 65536
  (dataBytes ++ [((checksum >>> 0) &&& 0xFF) % 256]) ++ [((checksum >>> 8) &&& 0xFF) % 256]

/-- A call of `GetBatteryRequest` that may leave out trailing arguments:
`none` stands for an omitted argument, which C++ fills with the default
written in the signature (`BatterySection::BATTERY_INFO` and
`BatterySectionWords::BATTERY_INFO`). -/
def GetBatteryRequest.call (batteryNumber : Nat) (section_ : Option BatterySection)
    (words : Option BatterySectionWords) : List Nat :=
  GetBatteryRequest batteryNumber (section_.getD BatterySection.BATTERY_INFO)
    (words.getD BatterySectionWords.BATTERY_INFO)

/-! ## Single-precision floating point -/

/-- A value of the C++ type `float` (IEEE-754 binary32). `fin neg m e` is
the finite number `(-1)^neg * m * 2^e`, kept in the canonical form of the
format: either `2^23 ≤ m < 2^24` and `-149 ≤ e ≤ 104` (normal numbers), or
`m < 2^23` and `e = -149` (zero and subnormal numbers). -/
inductive F32 where
  | fin (neg : Bool) (m : Nat) (e : Int)
  | inf (neg : Bool)
  | nan
  deriving DecidableEq, Repr

/-- Number of binary digits of `n` (`0` for `0`), by halving at most `fuel`
times; `bitLen n n` is the bit length of `n`. -/
def bitLen : Nat → Nat → Nat
  | 0, _ => 0
  | fuel + 1, n => if n = 0 then 0 else bitLen fuel (n / 2) + 1

namespace F32

/-- The exponent `k` of the quotient `n / d` of two positive integers:
`2^k ≤ n / d < 2^(k+1)`. The difference of the bit lengths is `k` or `k + 1`;
the comparison tells which. -/
def quotExp (n d : Nat) : Int :=
  let k0 : Int := (bitLen n n : Int) - (bitLen d d : Int)
  if d * 2 ^ k0.toNat ≤ n * 2 ^ (-k0).toNat then k0 else k0 - 1

/-- The integer nearest to `num / den`, the even one of the two when
`num / den` lies half way between them. -/
def roundQuot (num den : Nat) : Nat :=
  let q := num / den
  let r := num % den
  if den < 2 * r ∨ (2 * r = den ∧ q % 2 = 1) then q + 1 else q

/-- The value `(-1)^neg * m * 2^e` for a significand `m ≤ 2^24` that comes
out of a rounding: `2^24` is renormalised, and an exponent above the range
of the format gives an infinity. -/
def pack (neg : Bool) (m : Nat) (e : Int) : F32 :=
  if m = 2 ^ 24 then (if 104 < e + 1 then inf neg else fin neg (2 ^ 23) (e + 1))
  else if 104 < e then inf neg else fin neg m e

/-- The binary32 value nearest to `(-1)^neg * (n / d) * 2^x` for `d > 0`,
ties to even (the default rounding mode), overflowing to infinity: the
quotient is scaled to a significand of 24 bits (fewer in the subnormal
range, where the exponent stays at `-149`) and rounded to an integer. -/
def round (neg : Bool) (n d : Nat) (x : Int) : F32 :=
  if n = 0 then fin neg 0 (-149) else
  let e : Int := max (quotExp n d + x - 23) (-149)
  let s : Int := x - e
  pack neg (roundQuot (n * 2 ^ s.toNat) (d * 2 ^ (-s).toNat)) e

/-- The conversion `static_cast<float>(i)` of an integer. -/
def ofInt (i : Int) : F32 := round (decide (i < 0)) i.natAbs 1 0

/-- The conversion `static_cast<float>(n)` of an unsigned integer, also the
value of a literal such as `10.0f`. -/
def ofNat (n : Nat) : F32 := round false n 1 0

/-- The quotient `a / b` of two `float` values. -/
def div : F32 → F32 → F32
  | nan, _ => nan
  | _, nan => nan
  | inf _, inf _ => nan
  | inf s, fin t _ _ => inf (xor s t)
  | fin s _ _, inf t => fin (xor s t) 0 (-149)
  | fin s m e, fin t n f =>
    if n = 0 then (if m = 0 then nan else inf (xor s t))
    else round (xor s t) m n (e - f)

/-- The product `a * b` of two `float` values. -/
def mul : F32 → F32 → F32
  | nan, _ => nan
  | _, nan => nan
  | inf s, inf t => inf (xor s t)
  | inf s, fin t n _ => if n = 0 then nan else inf (xor s t)
  | fin s m _, inf t => if m = 0 then nan else inf (xor s t)
  | fin s m e, fin t n f => round (xor s t) (m * n) 1 (e + f)

/-- Whether the value is a finite number (neither NaN nor an infinity). -/
def isFinite : F32 → Bool
  | fin _ _ _ => true
  | _ => false

/-- The rational number a finite value stands for (`0` for NaN and the
infinities, which stand for no number). -/
def toRat : F32 → ℚ
  | fin neg m e => (if neg then -1 else 1) * (m : ℚ) * (2 : ℚ) ^ e
  | _ => 0

end F32

/-! ## Response decoder -/

/-- What `HandleBatteryData` writes to the log, as far as the embedding
keeps it: the two `ESP_LOGE` lines, and the parsed value of the two
sections that publish nothing (their only trace is an `ESP_LOGD` line). -/
inductive LogLine where
  | unexpectedFunction (function : Nat)
  | unknownSection (section_ : Int)
  | deviceModel (device_model : List Nat)
  | deviceId (device_id : Nat)
  deriving DecidableEq, Repr

/-- The observable effects of one call of `HandleBatteryData`. -/
structure Result where
  /-- The log lines, see `LogLine`. -/
  log : List LogLine
  /-- The calls `obj->publish_state(v)` in order: name of the sensor, value. -/
  published : List (String × F32)
  /-- The caller's string `*batteryName` after the call (`none` when the
  caller passed `nullptr`). -/
  batteryName : Option String
  deriving DecidableEq, Repr

deriving instance DecidableEq for Except

/-- The element `x[i]`; outside the buffer the access is undefined. -/
def readByte (x : List Nat) (i : Nat) : Except Nat Nat :=
  match x[i]? with
  | some b => .ok (b % 256)
  | none => .error i

/-- The bytes `x[i] .. x[i + n - 1]`, as `memcpy(dst, &x[i], n)` reads them. -/
def readBytes (x : List Nat) (i : Nat) : Nat → Except Nat (List Nat)
  | 0 => .ok []
  | n + 1 => do
    let b ← readByte x i
    let bs ← readBytes x (i + 1) n
    pure (b :: bs)

/-- A 16-bit word: `memcpy(&v, &x[i], 2)` followed by `v = ntohs(v)`. -/
def readU16 (x : List Nat) (i : Nat) : Except Nat Nat := do
  let b0 ← readByte x i
  let b1 ← readByte x (i + 1)
  pure (b0 * 256 + b1)

/-- A 32-bit word: `memcpy(&v, &x[i], 4)` followed by `v = ntohl(v)`. -/
def readU32 (x : List Nat) (i : Nat) : Except Nat Nat := do
  let b0 ← readByte x i
  let b1 ← readByte x (i + 1)
  let b2 ← readByte x (i + 2)
  let b3 ← readByte x (i + 3)
  pure (((b0 * 256 + b1) * 256 + b2) * 256 + b3)

/-- The value of an `int16_t` that holds the 16-bit pattern `w`. -/
def toI16 (w : Nat) : Int :=
  if w % 65536 < 32768 then (w % 65536 : Nat) else ((w % 65536 : Nat) : Int) - 65536

/-- The loop `for (i = 0; i < count; i++) memcpy(&v[i], &x[off + i * 2], 2)`
with `ntohs`, for `off = 5`: the `count` words from offset `off` on. -/
def readWords (x : List Nat) (off : Nat) : Nat → Except Nat (List Nat)
  | 0 => .ok []
  | count + 1 => do
    let w ← readU16 x off
    let ws ← readWords x (off + 2) count
    pure (w :: ws)

/-- The string built by `string id = batteryName->c_str()`: the characters
before the first NUL. -/
def c_str (s : String) : String :=
  String.mk (s.data.takeWhile (fun c => c ≠ Char.ofNat 0))

/-- The loop over `App.get_sensors()` that publishes `v` to every sensor
whose name equals `id`. -/
def publishTo (sensors : List String) (id : String) (v : F32) : List (String × F32) :=
  sensors.filterMap (fun obj => if obj = id then some (obj, v) else none)

/-- The publish loop of the two counted sections: for the `i`-th value (from
`i` on), the name is `namePrefix ++ label ++ to_string(i + 1) ++ suffix`. -/
def publishIndexed (sensors : List String) (namePrefix label suffix : String) :
    Nat → List F32 → List (String × F32)
  | _, [] => []
  | i, v :: vs =>
    publishTo sensors (namePrefix ++ label ++ toString (i + 1) ++ suffix) v
      ++ publishIndexed sensors namePrefix label suffix (i + 1) vs

/-- The publish loop of the battery-info section: each sensor takes the
value of the first of the five names that equals its own. -/
def publishBatteryInfo (sensors : List String) (namePrefix : String)
    (currentFloat voltageFloat presentCapacityFloat totalCapacityFloat chargeLevelFloat : F32) :
    List (String × F32) :=
  sensors.filterMap (fun obj =>
    if obj = namePrefix ++ "Current" then some (obj, currentFloat)
    else if obj = namePrefix ++ "Voltage" then some (obj, voltageFloat)
    else if obj = namePrefix ++ "Present Capacity" then some (obj, presentCapacityFloat)
    else if obj = namePrefix ++ "Total Capacity" then some (obj, totalCapacityFloat)
    else if obj = namePrefix ++ "Charge Level" then some (obj, chargeLevelFloat)
    else none)

/-- The string `*batteryName` after the block that fills it in: the decimal
battery id and a space when the caller passed `nullptr`, the caller's string
with a space appended when it is not empty, the caller's empty string
otherwise. -/
def prefixOf (batteryId : Nat) : Option String → String
  | none => toString batteryId ++ " "
  | some s => if s ≠ "" then s ++ " " else s

/-- The function `HandleBatteryData`. `sensors` are the names of
`App.get_sensors()`, in order. The result is `Except.error i` when the code
reads `x[i]` outside the buffer. -/
def HandleBatteryData (sensors : List String) (x : List Nat) (section_ : BatterySection)
    (batteryName : Option String) : Except Nat Result := do
  let batteryId ← readByte x 0
  let function ← readByte x 1
  if function ≠ ModbusFunction.READ then
    .ok { log := [.unexpectedFunction function], published := [], batteryName := batteryName }
  else
    let name := prefixOf batteryId batteryName
    let caller := batteryName.map (fun _ => name)
    if section_ = BatterySection.BATTERY_INFO then
      let current ← readU16 x 3
      let voltage ← readU16 x 5
      let presentCapacity ← readU32 x 7
      let totalCapacity ← readU32 x 11
      let currentFloat := F32.div (F32.ofInt (toI16 current)) (F32.ofNat 100)
      let voltageFloat := F32.div (F32.ofNat voltage) (F32.ofNat 10)
      let presentCapacityFloat := F32.div (F32.ofNat presentCapacity) (F32.ofNat 1000)
      let totalCapacityFloat := F32.div (F32.ofNat totalCapacity) (F32.ofNat 1000)
      let chargeLevelFloat :=
        F32.mul (F32.div presentCapacityFloat totalCapacityFloat) (F32.ofNat 100)
      .ok { log := [],
            published := publishBatteryInfo sensors (c_str name) currentFloat voltageFloat
              presentCapacityFloat totalCapacityFloat chargeLevelFloat,
            batteryName := caller }
    else if section_ = BatterySection.CELL_TEMP_INFO then
      let sensorCount ← readU16 x 3
      let sensorTemp ← readWords x 5 sensorCount
      let sensorTempFloat :=
        sensorTemp.map (fun t => F32.div (F32.ofInt (toI16 t)) (F32.ofNat 10))
      .ok { log := [],
            published := publishIndexed sensors (c_str name) "Sensor " " Temperature" 0
              sensorTempFloat,
            batteryName := caller }
    else if section_ = BatterySection.CELL_VOLT_INFO then
      let cellCount ← readU16 x 3
      let cellVolt ← readWords x 5 cellCount
      let cellVoltFloat := cellVolt.map (fun v => F32.div (F32.ofNat v) (F32.ofNat 10))
      .ok { log := [],
            published := publishIndexed sensors (c_str name) "Cell " " Voltage" 0 cellVoltFloat,
            batteryName := caller }
    else if section_ = BatterySection.DEVICE_INFO then
      let device_model ← readBytes x 3 15
      .ok { log := [.deviceModel device_model], published := [], batteryName := caller }
    else if section_ = BatterySection.DEVICE_ADDRESS then
      let device_id ← readU16 x 3
      .ok { log := [.deviceId device_id], published := [], batteryName := caller }
    else
      .ok { log := [.unknownSection section_.val], published := [], batteryName := caller }

/-! ## Vocabulary of the specification

The definitions below are not taken from the code: they name what the
specification talks about (the fields of a response, the set of measurements
of a section, their delivery to the sensors), so that the decoder can be
compared with it. -/

/-- Spec side: the byte at index `i` of a buffer (`0` past its end). -/
def spec_byte (x : List Nat) (i : Nat) : Nat := x[i]?.getD 0 % 256

/-- Spec side: bytes `i..i+1` read as an unsigned big-endian 16-bit integer. -/
def spec_u16be (x : List Nat) (i : Nat) : Nat := spec_byte x i * 256 + spec_byte x (i + 1)

/-- Spec side: bytes `i..i+1` read as a signed big-endian 16-bit integer. -/
def spec_i16be (x : List Nat) (i : Nat) : Int :=
  if spec_u16be x i < 32768 then (spec_u16be x i : Int) else (spec_u16be x i : Int) - 65536

/-- Spec side: bytes `i..i+3` read as an unsigned big-endian 32-bit integer. -/
def spec_u32be (x : List Nat) (i : Nat) : Nat :=
  spec_byte x i * 16777216 + spec_byte x (i + 1) * 65536 + spec_byte x (i + 2) * 256
    + spec_byte x (i + 3)

/-- Spec side: the five measurements of the battery-info section for the raw
fields `c`, `v`, `p`, `t`, in `float` arithmetic. -/
def spec_batteryInfo (namePrefix : String) (c : Int) (v p t : Nat) : List (String × F32) :=
  [ (namePrefix ++ "Current", F32.div (F32.ofInt c) (F32.ofNat 100)),
    (namePrefix ++ "Voltage", F32.div (F32.ofNat v) (F32.ofNat 10)),
    (namePrefix ++ "Present Capacity", F32.div (F32.ofNat p) (F32.ofNat 1000)),
    (namePrefix ++ "Total Capacity", F32.div (F32.ofNat t) (F32.ofNat 1000)),
    (namePrefix ++ "Charge Level",
      F32.mul (F32.div (F32.div (F32.ofNat p) (F32.ofNat 1000))
        (F32.div (F32.ofNat t) (F32.ofNat 1000))) (F32.ofNat 100)) ]

/-- Spec side: the `n` measurements of the cell-voltage section of a buffer,
the `i`-th named `"Cell {i+1} Voltage"` after the prefix, with the `i`-th raw
word divided by 10. -/
def spec_cellVoltages (namePrefix : String) (x : List Nat) (n : Nat) : List (String × F32) :=
  (List.range n).map (fun i =>
    (namePrefix ++ "Cell " ++ toString (i + 1) ++ " Voltage",
      F32.div (F32.ofNat (spec_u16be x (5 + 2 * i))) (F32.ofNat 10)))

/-- Spec side: a set of measurements handed to the sensors one measurement
after the other, each to every sensor that bears its name. -/
def spec_deliverEach (sensors : List String) (ms : List (String × F32)) : List (String × F32) :=
  ms.flatMap (fun m => (sensors.filter (fun obj => obj = m.1)).map (fun obj => (obj, m.2)))

/-- Spec side: a set of measurements handed to the sensors one sensor after
the other, each taking the first measurement that bears its name. -/
def spec_deliverFirst (sensors : List String) (ms : List (String × F32)) : List (String × F32) :=
  sensors.filterMap (fun obj => (ms.lookup obj).map (fun v => (obj, v)))

/-- Spec side: the `n` measurements of the cell-temperature section of a
buffer, the `i`-th named `"Sensor {i+1} Temperature"` after the prefix, with
the `i`-th raw word, read as a signed integer, divided by 10. -/
def spec_cellTemperatures (namePrefix : String) (x : List Nat) (n : Nat) :
    List (String × F32) :=
  (List.range n).map (fun i =>
    (namePrefix ++ "Sensor " ++ toString (i + 1) ++ " Temperature",
      F32.div (F32.ofInt (spec_i16be x (5 + 2 * i))) (F32.ofNat 10)))

/-! ## Calls in succession

The third argument of `HandleBatteryData` is a pointer: a caller that passes
the same string object again passes the string as the previous call left
it. -/

/-- Two calls in succession with the same buffer, the same section and the
same pointer `batteryName`: the results of the first and of the second. -/
def callTwice (sensors : List String) (x : List Nat) (section_ : BatterySection)
    (batteryName : Option String) : Except Nat (Result × Result) := do
  let r1 ← HandleBatteryData sensors x section_ batteryName
  let r2 ← HandleBatteryData sensors x section_ r1.batteryName
  pure (r1, r2)

/-- The caller's string after `k` calls in succession with the same buffer,
the same section and the same pointer `batteryName`. -/
def callTimes (sensors : List String) (x : List Nat) (section_ : BatterySection) :
    Nat → Option String → Except Nat (Option String)
  | 0, batteryName => .ok batteryName
  | k + 1, batteryName => do
    let r ← HandleBatteryData sensors x section_ batteryName
    callTimes sensors x section_ k r.batteryName

/-! ## Ranges of `float` values, for the proofs -/

/-- A normal number of sign `neg` whose exponent lies in `[lo, hi]`. -/
def F32.IsNormal (v : F32) (neg : Bool) (lo hi : Int) : Prop :=
  ∃ m e, v = F32.fin neg m e ∧ 2 ^ 23 ≤ m ∧ m < 2 ^ 24 ∧ lo ≤ e ∧ e ≤ hi

/-- A zero, or a normal number whose exponent lies in `[lo, hi]`. -/
def F32.ZeroOrNormal (v : F32) (lo hi : Int) : Prop :=
  (∃ s, v = F32.fin s 0 (-149)) ∨ ∃ s, F32.IsNormal v s lo hi

/-! ## Reading a decimal numeral back, for the proofs -/

/-- The number a list of decimal digit characters stands for, continuing from
the value `acc` of the digits already read. -/
def digitsValue (acc : Nat) (ds : List Char) : Nat :=
  ds.foldl (fun a c => 10 * a + (c.toNat - 48)) acc

/-! ## Auxiliary facts on bytes and words -/

theorem toU16_lt (v : Int) : toU16 v < 65536 := by
  unfold toU16
  omega

theorem and_0xFF (n : Nat) : n &&& 0xFF = n % 256 :=
  Nat.and_pow_two_sub_one_eq_mod n 8

theorem shiftRight_8 (n : Nat) : n >>> 8 = n / 256 :=
  Nat.shiftRight_eq_div_pow n 8

theorem crc16Bit_lt {crc : Nat} (h : crc < 65536) : crc16Bit crc < 65536 := by
  have h1 : crc >>> 1 < 2 ^ 16 := by
    rw [Nat.shiftRight_eq_div_pow]
    omega
  unfold crc16Bit
  split
  · exact Nat.xor_lt_two_pow h1 (by norm_num)
  · exact h1

theorem crc16Byte_lt {crc : Nat} (b : Nat) (h : crc < 65536) : crc16Byte crc b < 65536 := by
  have h0 : crc ^^^ (b % 256) < 2 ^ 16 :=
    Nat.xor_lt_two_pow h (by omega)
  unfold crc16Byte
  exact crc16Bit_lt (crc16Bit_lt (crc16Bit_lt (crc16Bit_lt (crc16Bit_lt (crc16Bit_lt
    (crc16Bit_lt (crc16Bit_lt h0)))))))

theorem foldl_crc16Byte_lt (data : List Nat) :
    ∀ crc, crc < 65536 → data.foldl crc16Byte crc < 65536 := by
  induction data with
  | nil => intro crc h; simpa using h
  | cons b bs ih => intro crc h; exact ih _ (crc16Byte_lt b h)

theorem crc16_lt (data : List Nat) : crc16 data < 65536 :=
  foldl_crc16Byte_lt data 0xFFFF (by norm_num)

/-- The eight bytes of a request, with the shifts and masks resolved. -/
theorem GetBatteryRequest_eq (b : Nat) (s : BatterySection) (w : BatterySectionWords) :
    GetBatteryRequest b s w =
      [b % 256, 3, toU16 s.val / 256, toU16 s.val % 256, toU16 w.val / 256, toU16 w.val % 256,
        crc16 [b % 256, 3, toU16 s.val / 256, toU16 s.val % 256, toU16 w.val / 256,
          toU16 w.val % 256] % 256,
        crc16 [b % 256, 3, toU16 s.val / 256, toU16 s.val % 256, toU16 w.val / 256,
          toU16 w.val % 256] / 256] := by
  have hs := toU16_lt s.val
  have hw := toU16_lt w.val
  have hc := crc16_lt [b % 256, 3, toU16 s.val / 256, toU16 s.val % 256, toU16 w.val / 256,
    toU16 w.val % 256]
  have e1 : toU16 s.val / 256 % 256 = toU16 s.val / 256 := by omega
  have e2 : toU16 w.val / 256 % 256 = toU16 w.val / 256 := by omega
  simp only [GetBatteryRequest, ModbusFunction.READ, and_0xFF, shiftRight_8, Nat.shiftRight_zero,
    Nat.mod_mod, e1, e2, List.cons_append, List.nil_append, List.append_assoc]
  have e3 : crc16 [b % 256, 3, toU16 s.val / 256, toU16 s.val % 256, toU16 w.val / 256,
      toU16 w.val % 256] % 65536 = crc16 [b % 256, 3, toU16 s.val / 256, toU16 s.val % 256,
      toU16 w.val / 256, toU16 w.val % 256] := Nat.mod_eq_of_lt hc
  rw [e3]
  have e4 : crc16 [b % 256, 3, toU16 s.val / 256, toU16 s.val % 256, toU16 w.val / 256,
      toU16 w.val % 256] / 256 % 256 = crc16 [b % 256, 3, toU16 s.val / 256, toU16 s.val % 256,
      toU16 w.val / 256, toU16 w.val % 256] / 256 := by omega
  rw [e4]

theorem readByte_ok {x : List Nat} {i : Nat} (h : i < x.length) :
    readByte x i = .ok (spec_byte x i) := by
  simp [readByte, spec_byte, List.getElem?_eq_getElem h]

theorem readByte_error {x : List Nat} {i : Nat} (h : x.length ≤ i) :
    readByte x i = .error i := by
  simp [readByte, List.getElem?_eq_none h]

theorem readU16_ok {x : List Nat} {i : Nat} (h : i + 2 ≤ x.length) :
    readU16 x i = .ok (spec_u16be x i) := by
  have h0 : i < x.length := by omega
  have h1 : i + 1 < x.length := by omega
  simp [readU16, spec_u16be, readByte_ok h0, readByte_ok h1, bind, Except.bind, pure, Except.pure]

theorem readU32_ok {x : List Nat} {i : Nat} (h : i + 4 ≤ x.length) :
    readU32 x i = .ok (spec_u32be x i) := by
  have h0 : i < x.length := by omega
  have h1 : i + 1 < x.length := by omega
  have h2 : i + 2 < x.length := by omega
  have h3 : i + 3 < x.length := by omega
  simp only [readU32, spec_u32be, readByte_ok h0, readByte_ok h1, readByte_ok h2, readByte_ok h3,
    bind, Except.bind, pure, Except.pure]
  exact congrArg Except.ok (by ring)

theorem toI16_spec (x : List Nat) (i : Nat) : toI16 (spec_u16be x i) = spec_i16be x i := by
  have hb0 : spec_byte x i < 256 := Nat.mod_lt _ (by norm_num)
  have hb1 : spec_byte x (i + 1) < 256 := Nat.mod_lt _ (by norm_num)
  have h : spec_u16be x i % 65536 = spec_u16be x i := by
    unfold spec_u16be
    omega
  simp only [toI16, spec_i16be, h]

theorem readWords_ok (x : List Nat) :
    ∀ (n off : Nat), off + 2 * n ≤ x.length →
      readWords x off n = .ok ((List.range n).map (fun i => spec_u16be x (off + 2 * i))) := by
  intro n
  induction n with
  | zero => intro off _; rfl
  | succ n ih =>
    intro off h
    have h0 : off + 2 ≤ x.length := by omega
    have h1 : off + 2 + 2 * n ≤ x.length := by omega
    simp only [readWords, readU16_ok h0, ih (off + 2) h1, bind, Except.bind, pure, Except.pure,
      List.range_succ_eq_map, List.map_cons, List.map_map]
    refine congrArg Except.ok (congrArg₂ List.cons rfl ?_)
    apply List.map_congr_left
    intro i _
    show spec_u16be x (off + 2 + 2 * i) = spec_u16be x (off + 2 * (i + 1))
    exact congrArg (spec_u16be x) (by omega)

theorem publishTo_eq (sensors : List String) (id : String) (v : F32) :
    publishTo sensors id v = (sensors.filter (fun obj => obj = id)).map (fun obj => (obj, v)) := by
  induction sensors with
  | nil => rfl
  | cons obj rest ih =>
    by_cases h : obj = id
    · simp [publishTo, List.filterMap_cons, List.filter_cons, h] at ih ⊢
      exact ih
    · simp [publishTo, List.filterMap_cons, List.filter_cons, h] at ih ⊢
      exact ih

theorem publishIndexed_eq (sensors : List String) (namePrefix label suffix : String) :
    ∀ (n k : Nat) (g : Nat → F32),
      publishIndexed sensors namePrefix label suffix k ((List.range n).map g) =
        spec_deliverEach sensors ((List.range n).map (fun j =>
          (namePrefix ++ label ++ toString (k + j + 1) ++ suffix, g j))) := by
  intro n
  induction n with
  | zero => intro k g; rfl
  | succ n ih =>
    intro k g
    simp only [List.range_succ_eq_map, List.map_cons, List.map_map, publishIndexed,
      spec_deliverEach, List.flatMap_cons, publishTo_eq, Nat.add_zero]
    have h := ih (k + 1) (g ∘ Nat.succ)
    simp only [spec_deliverEach] at h
    rw [h]
    refine congrArg₂ HAppend.hAppend rfl (congrArg₂ List.flatMap ?_ rfl)
    apply List.map_congr_left
    intro j _
    show (namePrefix ++ label ++ toString (k + 1 + j + 1) ++ suffix, g (j + 1)) =
      (namePrefix ++ label ++ toString (k + (j + 1) + 1) ++ suffix, g (j + 1))
    have e : k + 1 + j + 1 = k + (j + 1) + 1 := by omega
    rw [e]

theorem lookup_cons_ite (obj k : String) (v : F32) (rest : List (String × F32)) :
    List.lookup obj ((k, v) :: rest) = if obj = k then some v else List.lookup obj rest := by
  by_cases h : obj = k
  · subst h
    simp [List.lookup]
  · have hb : (obj == k) = false := by simpa using h
    simp [List.lookup, hb, h]

theorem publishBatteryInfo_eq (sensors : List String) (namePrefix : String) (c : Int)
    (v p t : Nat) :
    publishBatteryInfo sensors namePrefix (F32.div (F32.ofInt c) (F32.ofNat 100))
      (F32.div (F32.ofNat v) (F32.ofNat 10)) (F32.div (F32.ofNat p) (F32.ofNat 1000))
      (F32.div (F32.ofNat t) (F32.ofNat 1000))
      (F32.mul (F32.div (F32.div (F32.ofNat p) (F32.ofNat 1000))
        (F32.div (F32.ofNat t) (F32.ofNat 1000))) (F32.ofNat 100)) =
    spec_deliverFirst sensors (spec_batteryInfo namePrefix c v p t) := by
  unfold publishBatteryInfo spec_deliverFirst spec_batteryInfo
  refine congrArg₂ List.filterMap ?_ rfl
  funext obj
  simp only [lookup_cons_ite, List.lookup_nil]
  split_ifs <;> rfl

theorem String_append_left_cancel {p a b : String} (h : p ++ a = p ++ b) : a = b := by
  have h1 : (p ++ a).data = (p ++ b).data := congrArg String.data h
  rw [String.data_append, String.data_append] at h1
  exact String.ext (List.append_cancel_left h1)

theorem spec_deliverFirst_batteryInfo_self (namePrefix : String) (c : Int) (v p t : Nat) :
    spec_deliverFirst ((spec_batteryInfo namePrefix c v p t).map Prod.fst)
      (spec_batteryInfo namePrefix c v p t) = spec_batteryInfo namePrefix c v p t := by
  have ne : ∀ a b : String, a ≠ b → (namePrefix ++ a = namePrefix ++ b) = False := by
    intro a b hab
    exact eq_false (fun h => hab (String_append_left_cancel h))
  simp only [spec_deliverFirst, spec_batteryInfo, List.map_cons, List.map_nil,
    List.filterMap_cons, List.filterMap_nil, lookup_cons_ite, List.lookup_nil, if_true,
    Option.map_some', ne "Voltage" "Current" (by decide),
    ne "Present Capacity" "Current" (by decide), ne "Present Capacity" "Voltage" (by decide),
    ne "Total Capacity" "Current" (by decide), ne "Total Capacity" "Voltage" (by decide),
    ne "Total Capacity" "Present Capacity" (by decide),
    ne "Charge Level" "Current" (by decide), ne "Charge Level" "Voltage" (by decide),
    ne "Charge Level" "Present Capacity" (by decide),
    ne "Charge Level" "Total Capacity" (by decide), if_false]

theorem HandleBatteryData_battery_info_eq (sensors : List String) (x : List Nat)
    (name : Option String) (hlen : 15 ≤ x.length) (hf : spec_byte x 1 = 0x03) :
    HandleBatteryData sensors x BatterySection.BATTERY_INFO name =
      .ok ⟨[],
        spec_deliverFirst sensors
          (spec_batteryInfo (c_str (prefixOf (spec_byte x 0) name)) (spec_i16be x 3)
            (spec_u16be x 5) (spec_u32be x 7) (spec_u32be x 11)),
        name.map (fun _ => prefixOf (spec_byte x 0) name)⟩ := by
  have h0 : 0 < x.length := by omega
  have h1 : 1 < x.length := by omega
  have h3 : 3 + 2 ≤ x.length := by omega
  have h5 : 5 + 2 ≤ x.length := by omega
  have h7 : 7 + 4 ≤ x.length := by omega
  have h11 : 11 + 4 ≤ x.length := by omega
  simp only [HandleBatteryData, readByte_ok h0, readByte_ok h1, readU16_ok h3, readU16_ok h5,
    readU32_ok h7, readU32_ok h11, bind, Except.bind, ModbusFunction.READ, hf, ne_eq,
    not_true_eq_false, if_false, if_true, toI16_spec, publishBatteryInfo_eq]

theorem HandleBatteryData_cell_voltages_eq (sensors : List String) (x : List Nat)
    (name : Option String) (hf : spec_byte x 1 = 0x03)
    (hlen : 5 + 2 * spec_u16be x 3 ≤ x.length) :
    HandleBatteryData sensors x BatterySection.CELL_VOLT_INFO name =
      .ok ⟨[],
        spec_deliverEach sensors
          (spec_cellVoltages (c_str (prefixOf (spec_byte x 0) name)) x (spec_u16be x 3)),
        name.map (fun _ => prefixOf (spec_byte x 0) name)⟩ := by
  have h0 : 0 < x.length := by omega
  have h1 : 1 < x.length := by omega
  have h3 : 3 + 2 ≤ x.length := by omega
  have hs1 : ¬ BatterySection.CELL_VOLT_INFO = BatterySection.BATTERY_INFO := by decide
  have hs2 : ¬ BatterySection.CELL_VOLT_INFO = BatterySection.CELL_TEMP_INFO := by decide
  have hp := publishIndexed_eq sensors (c_str (prefixOf (spec_byte x 0) name)) "Cell " " Voltage"
    (spec_u16be x 3) 0 (fun i => F32.div (F32.ofNat (spec_u16be x (5 + 2 * i))) (F32.ofNat 10))
  simp only [Nat.zero_add] at hp
  simp only [HandleBatteryData, readByte_ok h0, readByte_ok h1, readU16_ok h3,
    readWords_ok x _ 5 hlen, bind, Except.bind, ModbusFunction.READ, hf, ne_eq,
    not_true_eq_false, if_false, if_true, hs1, hs2, List.map_map, spec_cellVoltages]
  exact congrArg Except.ok (congrArg (fun l => Result.mk [] l _) hp)

/-! ## Facts on `float` rounding -/

theorem bitLen_zero (fuel : Nat) : bitLen fuel 0 = 0 := by
  cases fuel <;> simp [bitLen]

theorem bitLen_spec : ∀ (fuel n : Nat), n < 2 ^ fuel →
    n < 2 ^ bitLen fuel n ∧ (n ≠ 0 → 1 ≤ bitLen fuel n ∧ 2 ^ (bitLen fuel n - 1) ≤ n) := by
  intro fuel
  induction fuel with
  | zero =>
    intro n h
    have h0 : n = 0 := by simpa using h
    subst h0
    simp [bitLen]
  | succ fuel ih =>
    intro n h
    by_cases hn : n = 0
    · subst hn
      simp [bitLen]
    · have hhalf : n / 2 < 2 ^ fuel := by
        rw [Nat.pow_succ] at h
        omega
      obtain ⟨h1, h2⟩ := ih (n / 2) hhalf
      simp only [bitLen, hn, if_false]
      refine ⟨?_, fun _ => ⟨by omega, ?_⟩⟩
      · rw [Nat.pow_succ]
        omega
      · simp only [Nat.add_sub_cancel]
        by_cases hq : n / 2 = 0
        · rw [hq, bitLen_zero]
          simp
          omega
        · obtain ⟨h3, h4⟩ := h2 hq
          have e : 2 ^ bitLen fuel (n / 2) = 2 ^ (bitLen fuel (n / 2) - 1) * 2 := by
            rw [← Nat.pow_succ]
            congr 1
            omega
          rw [e]
          omega

theorem bitLen_self {n : Nat} (hn : n ≠ 0) :
    1 ≤ bitLen n n ∧ 2 ^ (bitLen n n - 1) ≤ n ∧ n < 2 ^ bitLen n n := by
  obtain ⟨h1, h2⟩ := bitLen_spec n n (Nat.lt_two_pow n)
  obtain ⟨h3, h4⟩ := h2 hn
  exact ⟨h3, h4, h1⟩

theorem bitLen_eq_of_bounds {n b : Nat} (h1 : 2 ^ b ≤ n) (h2 : n < 2 ^ (b + 1)) :
    bitLen n n = b + 1 := by
  have hn : n ≠ 0 := by
    have := Nat.two_pow_pos b
    omega
  obtain ⟨h3, h4, h5⟩ := bitLen_self hn
  by_contra hne
  rcases Nat.lt_or_gt_of_ne hne with h | h
  · have : 2 ^ bitLen n n ≤ 2 ^ b := Nat.pow_le_pow_right (by norm_num) (by omega)
    omega
  · have : 2 ^ (b + 1) ≤ 2 ^ (bitLen n n - 1) := Nat.pow_le_pow_right (by norm_num) (by omega)
    omega


theorem two_zpow_split (a : Int) :
    ((2 ^ a.toNat : Nat) : ℚ) = (2 : ℚ) ^ a * ((2 ^ (-a).toNat : Nat) : ℚ) := by
  rcases le_total 0 a with h | h
  · have h1 : (-a).toNat = 0 := by omega
    have h2 : ((a.toNat : Nat) : Int) = a := by omega
    rw [h1]
    simp only [pow_zero, Nat.cast_one, mul_one, Nat.cast_pow, Nat.cast_ofNat]
    rw [← zpow_natCast, h2]
  · have h1 : a.toNat = 0 := by omega
    have h2 : (((-a).toNat : Nat) : Int) = -a := by omega
    rw [h1]
    simp only [pow_zero, Nat.cast_one, Nat.cast_pow, Nat.cast_ofNat]
    rw [← zpow_natCast, h2, ← zpow_add₀ (by norm_num : (2 : ℚ) ≠ 0)]
    simp

theorem scaled_le_iff (a b : Nat) (k : Int) :
    a * 2 ^ k.toNat ≤ b * 2 ^ (-k).toNat ↔ (a : ℚ) * (2 : ℚ) ^ k ≤ (b : ℚ) := by
  have hpos : (0 : ℚ) < ((2 ^ (-k).toNat : Nat) : ℚ) := by positivity
  rw [← Nat.cast_le (α := ℚ), Nat.cast_mul, Nat.cast_mul, two_zpow_split k, ← mul_assoc]
  exact mul_le_mul_right hpos

theorem bitLen_rat {n : Nat} (hn : n ≠ 0) :
    (2 : ℚ) ^ ((bitLen n n : Int) - 1) ≤ (n : ℚ) ∧ (n : ℚ) < (2 : ℚ) ^ (bitLen n n : Int) := by
  obtain ⟨h1, h2, h3⟩ := bitLen_self hn
  have e1 : ((bitLen n n - 1 : Nat) : Int) = (bitLen n n : Int) - 1 := by omega
  constructor
  · have := (Nat.cast_le (α := ℚ)).mpr h2
    rw [← e1, zpow_natCast]
    simpa using this
  · have := (Nat.cast_lt (α := ℚ)).mpr h3
    rw [zpow_natCast]
    simpa using this

theorem F32.quotExp_spec {n d : Nat} (hn : n ≠ 0) (hd : d ≠ 0) :
    (F32.quotExp n d = (bitLen n n : Int) - bitLen d d ∨
      F32.quotExp n d = (bitLen n n : Int) - bitLen d d - 1) ∧
    (d : ℚ) * (2 : ℚ) ^ F32.quotExp n d ≤ (n : ℚ) ∧
    (n : ℚ) < (d : ℚ) * (2 : ℚ) ^ (F32.quotExp n d + 1) := by
  obtain ⟨hn1, hn2⟩ := bitLen_rat hn
  obtain ⟨hd1, hd2⟩ := bitLen_rat hd
  have two : (2 : ℚ) ≠ 0 := by norm_num
  have dpos : (0 : ℚ) < d := by exact_mod_cast Nat.pos_of_ne_zero hd
  unfold F32.quotExp
  simp only []
  split
  · rename_i h
    refine ⟨Or.inl rfl, (scaled_le_iff d n _).mp h, ?_⟩
    calc (n : ℚ) < (2 : ℚ) ^ (bitLen n n : Int) := hn2
      _ = (2 : ℚ) ^ ((bitLen d d : Int) - 1) * (2 : ℚ) ^ ((bitLen n n : Int) - bitLen d d + 1) := by
        rw [← zpow_add₀ two]
        congr 1
        ring
      _ ≤ (d : ℚ) * (2 : ℚ) ^ ((bitLen n n : Int) - bitLen d d + 1) :=
        mul_le_mul_of_nonneg_right hd1 (by positivity)
  · rename_i h
    refine ⟨Or.inr rfl, ?_, ?_⟩
    · have : (d : ℚ) * (2 : ℚ) ^ ((bitLen n n : Int) - bitLen d d - 1)
          ≤ (2 : ℚ) ^ (bitLen d d : Int) * (2 : ℚ) ^ ((bitLen n n : Int) - bitLen d d - 1) :=
        mul_le_mul_of_nonneg_right hd2.le (by positivity)
      refine le_trans this ?_
      rw [← zpow_add₀ two]
      have e : (bitLen d d : Int) + ((bitLen n n : Int) - bitLen d d - 1) = (bitLen n n : Int) - 1 := by
        ring
      rw [e]
      exact hn1
    · have h' := (not_congr (scaled_le_iff d n _)).mp h
      have e : (bitLen n n : Int) - bitLen d d - 1 + 1 = (bitLen n n : Int) - bitLen d d := by ring
      rw [e]
      exact not_le.mp h'

theorem F32.roundQuot_bounds {num den lo hi : Nat} (hden : 0 < den) (h1 : lo * den ≤ num)
    (h2 : num < hi * den) :
    lo ≤ F32.roundQuot num den ∧ F32.roundQuot num den ≤ hi := by
  have hq1 : lo ≤ num / den := (Nat.le_div_iff_mul_le hden).mpr h1
  have hq2 : num / den < hi := (Nat.div_lt_iff_lt_mul hden).mpr h2
  unfold F32.roundQuot
  simp only []
  split <;> omega

theorem F32.round_normal (neg : Bool) {n d : Nat} (x : Int) (hn : n ≠ 0) (hd : d ≠ 0)
    (hlo : -149 ≤ (bitLen n n : Int) - bitLen d d + x - 24)
    (hhi : (bitLen n n : Int) - bitLen d d + x - 22 ≤ 104) :
    ∃ m e, F32.round neg n d x = F32.fin neg m e ∧ 2 ^ 23 ≤ m ∧ m < 2 ^ 24 ∧
      (bitLen n n : Int) - bitLen d d + x - 24 ≤ e ∧
      e ≤ (bitLen n n : Int) - bitLen d d + x - 22 := by
  obtain ⟨hk, hkl, hku⟩ := F32.quotExp_spec hn hd
  have two : (2 : ℚ) ≠ 0 := by norm_num
  have he : max (F32.quotExp n d + x - 23) (-149) = F32.quotExp n d + x - 23 :=
    max_eq_left (by omega)
  have hs : x - (F32.quotExp n d + x - 23) = 23 - F32.quotExp n d := by ring
  have hden : 0 < d * 2 ^ (-(23 - F32.quotExp n d)).toNat :=
    Nat.mul_pos (Nat.pos_of_ne_zero hd) (Nat.two_pow_pos _)
  have hz : (2 : ℚ) ^ (-(23 - F32.quotExp n d)) = (2 : ℚ) ^ F32.quotExp n d / 8388608 := by
    rw [show -(23 - F32.quotExp n d) = F32.quotExp n d - 23 by ring, zpow_sub₀ two]
    norm_num
  have hz1 : (2 : ℚ) ^ (F32.quotExp n d + 1) = (2 : ℚ) ^ F32.quotExp n d * 2 := by
    rw [zpow_add₀ two, zpow_one]
  have h1 : 2 ^ 23 * (d * 2 ^ (-(23 - F32.quotExp n d)).toNat)
      ≤ n * 2 ^ (23 - F32.quotExp n d).toNat := by
    have := (scaled_le_iff (2 ^ 23 * d) n (-(23 - F32.quotExp n d))).mpr (by
      rw [hz]
      push_cast
      linarith)
    rw [neg_neg] at this
    rw [← Nat.mul_assoc]
    exact this
  have h2 : n * 2 ^ (23 - F32.quotExp n d).toNat
      < 2 ^ 24 * (d * 2 ^ (-(23 - F32.quotExp n d)).toNat) := by
    have := (not_congr (scaled_le_iff (2 ^ 24 * d) n (-(23 - F32.quotExp n d)))).mpr (by
      rw [hz, not_le]
      push_cast
      rw [hz1] at hku
      linarith)
    rw [neg_neg] at this
    rw [← Nat.mul_assoc]
    exact not_le.mp this
  obtain ⟨hm1, hm2⟩ := F32.roundQuot_bounds hden h1 h2
  unfold F32.round
  rw [if_neg hn]
  simp only [he, hs]
  unfold F32.pack
  split
  · rename_i hm
    rw [if_neg (by omega)]
    exact ⟨2 ^ 23, _, rfl, le_refl _, by norm_num, by omega, by omega⟩
  · rename_i hm
    rw [if_neg (by omega)]
    exact ⟨_, _, rfl, hm1, by omega, by omega, by omega⟩

theorem bitLen_le_of_lt {n b : Nat} (hn : n ≠ 0) (h : n < 2 ^ b) : bitLen n n ≤ b := by
  obtain ⟨h1, h2, _⟩ := bitLen_self hn
  by_contra hc
  have : 2 ^ b ≤ 2 ^ (bitLen n n - 1) := Nat.pow_le_pow_right (by norm_num) (by omega)
  omega

theorem F32.ofNat_normal {p : Nat} (hp : p ≠ 0) (hlt : p < 2 ^ 32) :
    F32.IsNormal (F32.ofNat p) false (-24) 9 := by
  obtain ⟨h1, _, _⟩ := bitLen_self hp
  have h2 := bitLen_le_of_lt hp hlt
  have hb1 : bitLen 1 1 = 1 := by decide
  obtain ⟨m, e, hv, hm1, hm2, he1, he2⟩ := F32.round_normal false (n := p) (d := 1) 0 hp
    (by norm_num) (by rw [hb1]; omega) (by rw [hb1]; omega)
  rw [hb1] at he1 he2
  exact ⟨m, e, hv, hm1, hm2, by omega, by omega⟩

theorem F32.ofInt_normal {c : Int} (hc : c ≠ 0) (hlt : c.natAbs < 2 ^ 32) :
    F32.IsNormal (F32.ofInt c) (decide (c < 0)) (-24) 9 := by
  have hp : c.natAbs ≠ 0 := by omega
  obtain ⟨h1, _, _⟩ := bitLen_self hp
  have h2 := bitLen_le_of_lt hp hlt
  have hb1 : bitLen 1 1 = 1 := by decide
  obtain ⟨m, e, hv, hm1, hm2, he1, he2⟩ := F32.round_normal (decide (c < 0)) (n := c.natAbs)
    (d := 1) 0 hp (by norm_num) (by rw [hb1]; omega) (by rw [hb1]; omega)
  rw [hb1] at he1 he2
  exact ⟨m, e, hv, hm1, hm2, by omega, by omega⟩

theorem F32.div_normal {a b : F32} {s t : Bool} {lo hi lo' hi' : Int}
    (ha : F32.IsNormal a s lo hi) (hb : F32.IsNormal b t lo' hi')
    (h1 : -149 ≤ lo - hi' - 24) (h2 : hi - lo' - 22 ≤ 104) :
    F32.IsNormal (F32.div a b) (xor s t) (lo - hi' - 24) (hi - lo' - 22) := by
  obtain ⟨m, e, rfl, hm1, hm2, he1, he2⟩ := ha
  obtain ⟨n, f, rfl, hn1, hn2, hf1, hf2⟩ := hb
  have hm : m ≠ 0 := by omega
  have hn : n ≠ 0 := by omega
  have bm : bitLen m m = 24 := bitLen_eq_of_bounds hm1 hm2
  have bn : bitLen n n = 24 := bitLen_eq_of_bounds hn1 hn2
  obtain ⟨m', e', hv, hm1', hm2', he1', he2'⟩ := F32.round_normal (xor s t) (n := m) (d := n)
    (e - f) hm hn (by rw [bm, bn]; omega) (by rw [bm, bn]; omega)
  rw [bm, bn] at he1' he2'
  refine ⟨m', e', ?_, hm1', hm2', by omega, by omega⟩
  simp only [F32.div, if_neg hn]
  exact hv

theorem F32.mul_normal {a b : F32} {s t : Bool} {lo hi lo' hi' : Int}
    (ha : F32.IsNormal a s lo hi) (hb : F32.IsNormal b t lo' hi')
    (h1 : -149 ≤ lo + lo' + 22) (h2 : hi + hi' + 25 ≤ 104) :
    F32.IsNormal (F32.mul a b) (xor s t) (lo + lo' + 22) (hi + hi' + 25) := by
  obtain ⟨m, e, rfl, hm1, hm2, he1, he2⟩ := ha
  obtain ⟨n, f, rfl, hn1, hn2, hf1, hf2⟩ := hb
  have hlow : 2 ^ 46 ≤ m * n := by
    calc 2 ^ 46 = 2 ^ 23 * 2 ^ 23 := by norm_num
      _ ≤ m * n := Nat.mul_le_mul hm1 hn1
  have hupp : m * n < 2 ^ 48 := by
    calc m * n < 2 ^ 24 * 2 ^ 24 := Nat.mul_lt_mul'' hm2 hn2
      _ = 2 ^ 48 := by norm_num
  have hmn : m * n ≠ 0 := by omega
  have b1 : bitLen (m * n) (m * n) ≤ 48 := bitLen_le_of_lt hmn hupp
  have b2 : 47 ≤ bitLen (m * n) (m * n) := by
    obtain ⟨_, _, h3⟩ := bitLen_self hmn
    by_contra hc
    have : 2 ^ bitLen (m * n) (m * n) ≤ 2 ^ 46 := Nat.pow_le_pow_right (by norm_num) (by omega)
    omega
  have hb1 : bitLen 1 1 = 1 := by decide
  obtain ⟨m', e', hv, hm1', hm2', he1', he2'⟩ := F32.round_normal (xor s t) (n := m * n) (d := 1)
    (e + f) hmn (by norm_num) (by rw [hb1]; omega) (by rw [hb1]; omega)
  rw [hb1] at he1' he2'
  exact ⟨m', e', hv, hm1', hm2', by omega, by omega⟩

theorem F32.ZeroOrNormal.isFinite {v : F32} {lo hi : Int} (h : F32.ZeroOrNormal v lo hi) :
    v.isFinite = true := by
  rcases h with ⟨s, rfl⟩ | ⟨s, m, e, rfl, _⟩ <;> rfl

theorem F32.ofNat_zeroOrNormal {p : Nat} (hlt : p < 2 ^ 32) :
    F32.ZeroOrNormal (F32.ofNat p) (-24) 9 := by
  by_cases hp : p = 0
  · subst hp
    exact Or.inl ⟨false, rfl⟩
  · exact Or.inr ⟨false, F32.ofNat_normal hp hlt⟩

theorem F32.ofInt_zeroOrNormal {c : Int} (hlt : c.natAbs < 2 ^ 32) :
    F32.ZeroOrNormal (F32.ofInt c) (-24) 9 := by
  by_cases hc : c = 0
  · subst hc
    exact Or.inl ⟨false, rfl⟩
  · exact Or.inr ⟨_, F32.ofInt_normal hc hlt⟩

theorem F32.div_zeroOrNormal {a b : F32} {t : Bool} {lo hi lo' hi' : Int}
    (ha : F32.ZeroOrNormal a lo hi) (hb : F32.IsNormal b t lo' hi')
    (h1 : -149 ≤ lo - hi' - 24) (h2 : hi - lo' - 22 ≤ 104) :
    F32.ZeroOrNormal (F32.div a b) (lo - hi' - 24) (hi - lo' - 22) := by
  rcases ha with ⟨s, rfl⟩ | ⟨s, ha⟩
  · obtain ⟨n, f, rfl, hn1, _⟩ := hb
    have hn : n ≠ 0 := by omega
    exact Or.inl ⟨xor s t, by simp [F32.div, hn, F32.round]⟩
  · exact Or.inr ⟨_, F32.div_normal ha hb h1 h2⟩

theorem F32.mul_zeroOrNormal {a b : F32} {t : Bool} {lo hi lo' hi' : Int}
    (ha : F32.ZeroOrNormal a lo hi) (hb : F32.IsNormal b t lo' hi')
    (h1 : -149 ≤ lo + lo' + 22) (h2 : hi + hi' + 25 ≤ 104) :
    F32.ZeroOrNormal (F32.mul a b) (lo + lo' + 22) (hi + hi' + 25) := by
  rcases ha with ⟨s, rfl⟩ | ⟨s, ha⟩
  · obtain ⟨n, f, rfl, _⟩ := hb
    exact Or.inl ⟨xor s t, by simp [F32.mul, F32.round]⟩
  · exact Or.inr ⟨_, F32.mul_normal ha hb h1 h2⟩

theorem F32.ofNat_10 : F32.IsNormal (F32.ofNat 10) false (-20) (-13) :=
  ⟨10485760, -20, by decide, by norm_num, by norm_num, by norm_num, by norm_num⟩

theorem F32.ofNat_100 : F32.IsNormal (F32.ofNat 100) false (-20) (-13) :=
  ⟨13107200, -17, by decide, by norm_num, by norm_num, by norm_num, by norm_num⟩

theorem F32.ofNat_1000 : F32.IsNormal (F32.ofNat 1000) false (-20) (-13) :=
  ⟨16384000, -14, by decide, by norm_num, by norm_num, by norm_num, by norm_num⟩

/-- With a total capacity other than 0, the five battery-info values are
finite numbers. -/
theorem spec_batteryInfo_finite (namePrefix : String) {c : Int} {v p t : Nat}
    (hc : c.natAbs < 2 ^ 32) (hv : v < 2 ^ 32) (hp : p < 2 ^ 32) (ht : t < 2 ^ 32)
    (ht0 : t ≠ 0) :
    ∀ m ∈ spec_batteryInfo namePrefix c v p t, m.2.isFinite = true := by
  have hP := F32.div_zeroOrNormal (F32.ofNat_zeroOrNormal hp) F32.ofNat_1000
    (by norm_num) (by norm_num)
  have hT := F32.div_normal (F32.ofNat_normal ht0 ht) F32.ofNat_1000 (by norm_num) (by norm_num)
  have hPT := F32.div_zeroOrNormal hP hT (by norm_num) (by norm_num)
  have hCL := F32.mul_zeroOrNormal hPT F32.ofNat_100 (by norm_num) (by norm_num)
  intro m hm
  simp only [spec_batteryInfo, List.mem_cons, List.mem_singleton, List.not_mem_nil,
    or_false] at hm
  rcases hm with rfl | rfl | rfl | rfl | rfl
  · exact (F32.div_zeroOrNormal (F32.ofInt_zeroOrNormal hc) F32.ofNat_100
      (by norm_num) (by norm_num)).isFinite
  · exact (F32.div_zeroOrNormal (F32.ofNat_zeroOrNormal hv) F32.ofNat_10
      (by norm_num) (by norm_num)).isFinite
  · exact hP.isFinite
  · exact F32.ZeroOrNormal.isFinite (Or.inr ⟨_, hT⟩)
  · exact hCL.isFinite

/-- With a total capacity of 0, the charge level is NaN when the present
capacity is 0 too, and plus infinity otherwise. -/
theorem chargeLevel_zero_total {p : Nat} (hp : p < 2 ^ 32) :
    (p = 0 → F32.mul (F32.div (F32.div (F32.ofNat p) (F32.ofNat 1000))
        (F32.div (F32.ofNat 0) (F32.ofNat 1000))) (F32.ofNat 100) = F32.nan) ∧
    (p ≠ 0 → F32.mul (F32.div (F32.div (F32.ofNat p) (F32.ofNat 1000))
        (F32.div (F32.ofNat 0) (F32.ofNat 1000))) (F32.ofNat 100) = F32.inf false) := by
  have hT : F32.div (F32.ofNat 0) (F32.ofNat 1000) = F32.fin false 0 (-149) := by decide
  have h100 : F32.ofNat 100 = F32.fin false 13107200 (-17) := by decide
  constructor
  · intro h0
    subst h0
    decide
  · intro h0
    obtain ⟨m, e, hv, hm1, _⟩ :=
      F32.div_normal (F32.ofNat_normal h0 hp) F32.ofNat_1000 (by norm_num) (by norm_num)
    have hm : m ≠ 0 := by omega
    rw [hT, h100, hv]
    simp [F32.div, F32.mul, hm]

/-! ## Ranges of the fields of a response -/

theorem spec_byte_lt (x : List Nat) (i : Nat) : spec_byte x i < 256 :=
  Nat.mod_lt _ (by norm_num)

theorem spec_u16be_lt (x : List Nat) (i : Nat) : spec_u16be x i < 65536 := by
  have h0 := spec_byte_lt x i
  have h1 := spec_byte_lt x (i + 1)
  unfold spec_u16be
  omega

theorem spec_u32be_lt (x : List Nat) (i : Nat) : spec_u32be x i < 2 ^ 32 := by
  have h0 := spec_byte_lt x i
  have h1 := spec_byte_lt x (i + 1)
  have h2 := spec_byte_lt x (i + 2)
  have h3 := spec_byte_lt x (i + 3)
  unfold spec_u32be
  omega

theorem spec_i16be_range (x : List Nat) (i : Nat) :
    -32768 ≤ spec_i16be x i ∧ spec_i16be x i ≤ 32767 := by
  have h := spec_u16be_lt x i
  unfold spec_i16be
  split <;> omega

/-! ## Distinct names -/

theorem digitChar_value (k : Nat) (h : k < 10) : (Nat.digitChar k).toNat - 48 = k := by
  interval_cases k <;> rfl

theorem digitsValue_toDigitsCore :
    ∀ (fuel n : Nat) (ds : List Char), n < fuel →
      digitsValue 0 (Nat.toDigitsCore 10 fuel n ds) = digitsValue n ds := by
  intro fuel
  induction fuel with
  | zero => intro n ds h; omega
  | succ fuel ih =>
    intro n ds h
    have hd := digitChar_value (n % 10) (Nat.mod_lt _ (by norm_num))
    simp only [Nat.toDigitsCore]
    split
    · rename_i h0
      have hn : n % 10 = n := by omega
      simp only [digitsValue, List.foldl_cons, Nat.mul_zero, Nat.zero_add, hd]
      rw [hn]
    · rename_i h0
      rw [ih (n / 10) _ (by omega)]
      simp only [digitsValue, List.foldl_cons, hd]
      congr 1
      omega

theorem toString_nat_injective {a b : Nat} (h : toString a = toString b) : a = b := by
  have h1 : Nat.toDigits 10 a = Nat.toDigits 10 b := by
    have := congrArg String.data h
    exact this
  have ha := digitsValue_toDigitsCore (a + 1) a [] (by omega)
  have hb := digitsValue_toDigitsCore (b + 1) b [] (by omega)
  simp only [Nat.toDigits] at h1
  rw [h1] at ha
  rw [ha] at hb
  simpa [digitsValue] using hb

theorem String_append_right_cancel {a b s : String} (h : a ++ s = b ++ s) : a = b := by
  have h1 : (a ++ s).data = (b ++ s).data := congrArg String.data h
  rw [String.data_append, String.data_append] at h1
  exact String.ext (List.append_cancel_right h1)

theorem spec_deliverEach_self (ms : List (String × F32)) (h : (ms.map Prod.fst).Nodup) :
    spec_deliverEach (ms.map Prod.fst) ms = ms := by
  have key : ∀ m ∈ ms, ((ms.map Prod.fst).filter (fun obj => obj = m.1)).map
      (fun obj => (obj, m.2)) = [m] := by
    intro m hm
    have hmem : m.1 ∈ ms.map Prod.fst := List.mem_map_of_mem _ hm
    have hc : List.count m.1 (ms.map Prod.fst) = 1 := List.count_eq_one_of_mem h hmem
    have hf : (ms.map Prod.fst).filter (fun obj => obj = m.1) = [m.1] := by
      have := List.filter_eq (ms.map Prod.fst) m.1
      simp only [hc, List.replicate_one] at this
      rw [← this]
    rw [hf]
    rfl
  unfold spec_deliverEach
  rw [List.flatMap_congr key]
  induction ms with
  | nil => rfl
  | cons m rest ih' => simp [List.flatMap_cons]

theorem spec_cellVoltages_names_nodup (namePrefix : String) (x : List Nat) (n : Nat) :
    ((spec_cellVoltages namePrefix x n).map Prod.fst).Nodup := by
  have hmap : (spec_cellVoltages namePrefix x n).map Prod.fst =
      (List.range n).map (fun i => namePrefix ++ "Cell " ++ toString (i + 1) ++ " Voltage") := by
    simp [spec_cellVoltages, Function.comp]
  rw [hmap]
  refine List.Nodup.map ?_ (List.nodup_range n)
  intro i j hij
  have h1 := String_append_right_cancel hij
  have h2 := String_append_left_cancel h1
  have h3 := toString_nat_injective h2
  omega

/-! ## The cell-temperature section -/

theorem HandleBatteryData_cell_temperatures_eq (sensors : List String) (x : List Nat)
    (name : Option String) (hf : spec_byte x 1 = 0x03)
    (hlen : 5 + 2 * spec_u16be x 3 ≤ x.length) :
    HandleBatteryData sensors x BatterySection.CELL_TEMP_INFO name =
      .ok ⟨[],
        spec_deliverEach sensors
          (spec_cellTemperatures (c_str (prefixOf (spec_byte x 0) name)) x (spec_u16be x 3)),
        name.map (fun _ => prefixOf (spec_byte x 0) name)⟩ := by
  have h0 : 0 < x.length := by omega
  have h1 : 1 < x.length := by omega
  have h3 : 3 + 2 ≤ x.length := by omega
  have hs1 : ¬ BatterySection.CELL_TEMP_INFO = BatterySection.BATTERY_INFO := by decide
  have hp := publishIndexed_eq sensors (c_str (prefixOf (spec_byte x 0) name)) "Sensor "
    " Temperature" (spec_u16be x 3) 0
    (fun i => F32.div (F32.ofInt (spec_i16be x (5 + 2 * i))) (F32.ofNat 10))
  simp only [Nat.zero_add] at hp
  simp only [HandleBatteryData, readByte_ok h0, readByte_ok h1, readU16_ok h3,
    readWords_ok x _ 5 hlen, bind, Except.bind, ModbusFunction.READ, hf, ne_eq,
    not_true_eq_false, if_false, if_true, hs1, List.map_map, spec_cellTemperatures]
  refine congrArg Except.ok (congrArg (fun l => Result.mk [] l _) ?_)
  rw [← hp]
  refine congrArg _ (List.map_congr_left ?_)
  intro i _
  simp only [Function.comp, toI16_spec]

theorem spec_cellTemperatures_names_nodup (namePrefix : String) (x : List Nat) (n : Nat) :
    ((spec_cellTemperatures namePrefix x n).map Prod.fst).Nodup := by
  have hmap : (spec_cellTemperatures namePrefix x n).map Prod.fst =
      (List.range n).map
        (fun i => namePrefix ++ "Sensor " ++ toString (i + 1) ++ " Temperature") := by
    simp [spec_cellTemperatures, Function.comp]
  rw [hmap]
  refine List.Nodup.map ?_ (List.nodup_range n)
  intro i j hij
  have h1 := String_append_right_cancel hij
  have h2 := String_append_left_cancel h1
  have h3 := toString_nat_injective h2
  omega

theorem temperature_negative (x : List Nat) (i : Nat) (h : 0x8000 ≤ spec_u16be x i) :
    F32.toRat (F32.div (F32.ofInt (spec_i16be x i)) (F32.ofNat 10)) < 0 := by
  have hr := spec_i16be_range x i
  have hneg : spec_i16be x i < 0 := by
    have hlt := spec_u16be_lt x i
    unfold spec_i16be
    rw [if_neg (by omega)]
    omega
  have hn := F32.ofInt_normal (c := spec_i16be x i) (by omega) (by omega)
  obtain ⟨m, e, hv, hm1, _⟩ := F32.div_normal hn F32.ofNat_10 (by norm_num) (by norm_num)
  have hs : xor (decide (spec_i16be x i < 0)) false = true := by simp [hneg]
  rw [hv, hs]
  have hm : (0 : ℚ) < (m : ℚ) := by
    have : 0 < m := by omega
    exact_mod_cast this
  have hp : (0 : ℚ) < (2 : ℚ) ^ e := by positivity
  simp only [F32.toRat, if_true]
  nlinarith [mul_pos hm hp]

/-! ## What a call that returns leaves behind -/

theorem readByte_eq_ok {x : List Nat} {i b : Nat} (h : readByte x i = .ok b) :
    i < x.length ∧ b = spec_byte x i := by
  by_cases hi : i < x.length
  · rw [readByte_ok hi] at h
    exact ⟨hi, (Except.ok.inj h).symm⟩
  · rw [readByte_error (by omega)] at h
    cases h

theorem mem_publishTo {sensors : List String} {id : String} {v : F32} {m : String × F32}
    (h : m ∈ publishTo sensors id v) : m = (id, v) := by
  rw [publishTo_eq] at h
  simp only [List.mem_map, List.mem_filter, decide_eq_true_eq] at h
  obtain ⟨obj, ⟨_, rfl⟩, rfl⟩ := h
  rfl

theorem mem_publishIndexed {sensors : List String} {namePrefix label suffix : String}
    {m : String × F32} :
    ∀ (vs : List F32) (i : Nat), m ∈ publishIndexed sensors namePrefix label suffix i vs →
      ∃ rest, m.1 = namePrefix ++ rest := by
  intro vs
  induction vs with
  | nil => intro i h; simp [publishIndexed] at h
  | cons v vs ih =>
    intro i h
    simp only [publishIndexed, List.mem_append] at h
    rcases h with h | h
    · rw [mem_publishTo h]
      exact ⟨label ++ toString (i + 1) ++ suffix, by simp [String.append_assoc]⟩
    · exact ih (i + 1) h

theorem mem_publishBatteryInfo {sensors : List String} {namePrefix : String}
    {a b c d e : F32} {m : String × F32}
    (h : m ∈ publishBatteryInfo sensors namePrefix a b c d e) :
    ∃ rest, m.1 = namePrefix ++ rest := by
  simp only [publishBatteryInfo, List.mem_filterMap] at h
  obtain ⟨obj, _, h⟩ := h
  split_ifs at h with h1 h2 h3 h4 h5
  · cases h; exact ⟨_, h1⟩
  · cases h; exact ⟨_, h2⟩
  · cases h; exact ⟨_, h3⟩
  · cases h; exact ⟨_, h4⟩
  · cases h; exact ⟨_, h5⟩

/-- What a call that returns leaves behind, for every section: the buffer
has its bytes 0 and 1, the caller's string is the filled-in prefix when byte
1 is `0x03` and untouched otherwise, and every published name starts with
the C string of the prefix. -/
theorem HandleBatteryData_ok_inv {sensors : List String} {x : List Nat}
    {s : BatterySection} {name : Option String} {r : Result}
    (h : HandleBatteryData sensors x s name = .ok r) :
    1 < x.length ∧
    r.batteryName =
      (if spec_byte x 1 = 0x03 then name.map (fun _ => prefixOf (spec_byte x 0) name)
        else name) ∧
    ∀ m ∈ r.published, ∃ rest, m.1 = c_str (prefixOf (spec_byte x 0) name) ++ rest := by
  unfold HandleBatteryData at h
  simp only [bind, Except.bind] at h
  split at h
  · cases h
  · rename_i b0 h0
    split at h
    · cases h
    · rename_i f h1
      obtain ⟨_, rfl⟩ := readByte_eq_ok h0
      obtain ⟨hl, rfl⟩ := readByte_eq_ok h1
      refine ⟨hl, ?_⟩
      simp only [ModbusFunction.READ] at h
      by_cases hf : spec_byte x 1 = 3
      · simp only [hf, ne_eq, not_true_eq_false, if_false, if_true] at h ⊢
        repeat' split at h
        all_goals (cases h <;> refine ⟨rfl, ?_⟩ <;> intro m hm)
        · exact mem_publishBatteryInfo hm
        · exact mem_publishIndexed _ _ hm
        · exact mem_publishIndexed _ _ hm
        · cases hm
        · cases hm
        · cases hm
      · simp only [hf, ne_eq, not_false_eq_true, if_true, if_false] at h ⊢
        cases h
        exact ⟨rfl, fun m hm => by cases hm⟩

theorem HandleBatteryData_error_indep {sensors sensors' : List String} {x : List Nat}
    {s : BatterySection} {name name' : Option String} {i : Nat}
    (h : HandleBatteryData sensors x s name = .error i) :
    HandleBatteryData sensors' x s name' = .error i := by
  unfold HandleBatteryData at h ⊢
  simp only [bind, Except.bind] at h ⊢
  repeat' split at h
  all_goals (cases h <;> simp_all)


/-! ## Strings without a NUL character -/

theorem c_str_of_no_nul {s : String} (h : Char.ofNat 0 ∉ s.data) : c_str s = s := by
  have h1 : s.data.takeWhile (fun c => decide (c ≠ Char.ofNat 0)) = s.data := by
    rw [List.takeWhile_eq_self_iff]
    intro c hc
    have : c ≠ Char.ofNat 0 := fun e => h (e ▸ hc)
    simpa using this
  unfold c_str
  rw [h1]

theorem digitChar_ne_nul (k : Nat) (h : k < 10) : Nat.digitChar k ≠ Char.ofNat 0 := by
  interval_cases k <;> decide

theorem toDigitsCore_no_nul :
    ∀ (fuel n : Nat) (ds : List Char), Char.ofNat 0 ∉ ds →
      Char.ofNat 0 ∉ Nat.toDigitsCore 10 fuel n ds := by
  intro fuel
  induction fuel with
  | zero => intro n ds h; simpa [Nat.toDigitsCore] using h
  | succ fuel ih =>
    intro n ds h
    have hd := digitChar_ne_nul (n % 10) (Nat.mod_lt _ (by norm_num))
    have hcons : Char.ofNat 0 ∉ Nat.digitChar (n % 10) :: ds := by
      intro hmem
      rcases List.mem_cons.mp hmem with e | e
      · exact hd e.symm
      · exact h e
    simp only [Nat.toDigitsCore]
    split
    · exact hcons
    · exact ih _ _ hcons

theorem toString_nat_no_nul (n : Nat) : Char.ofNat 0 ∉ (toString n).data :=
  toDigitsCore_no_nul (n + 1) n [] (by simp)

theorem append_space_no_nul {s : String} (h : Char.ofNat 0 ∉ s.data) :
    Char.ofNat 0 ∉ (s ++ " ").data := by
  rw [String.data_append]
  intro hmem
  rcases List.mem_append.mp hmem with e | e
  · exact h e
  · revert e
    decide

/-! ## Calls in succession -/

theorem HandleBatteryData_ok_of_ok {sensors sensors' : List String} {x : List Nat}
    {s : BatterySection} {name name' : Option String} {r : Result}
    (h : HandleBatteryData sensors x s name = .ok r) :
    ∃ r', HandleBatteryData sensors' x s name' = .ok r' := by
  cases h' : HandleBatteryData sensors' x s name' with
  | ok r' => exact ⟨r', rfl⟩
  | error i =>
    have := @HandleBatteryData_error_indep sensors' sensors x s name' name i h'
    rw [h] at this
    cases this

theorem HandleBatteryData_batteryName_unchanged {sensors : List String} {x : List Nat}
    {s : BatterySection} {name : Option String} {r : Result}
    (h : HandleBatteryData sensors x s name = .ok r)
    (hn : name = none ∨ name = some "" ∨ spec_byte x 1 ≠ 0x03) :
    r.batteryName = name := by
  rw [(HandleBatteryData_ok_inv h).2.1]
  rcases hn with rfl | rfl | hf
  · simp
  · split <;> rfl
  · rw [if_neg hf]

theorem append_spaces (p : String) (k : Nat) :
    p ++ " " ++ String.mk (List.replicate k (Char.ofNat 32)) =
      p ++ String.mk (List.replicate (k + 1) (Char.ofNat 32)) := by
  apply String.ext
  simp only [String.data_append, List.replicate_succ, List.append_assoc]
  rfl

theorem append_space_ne_empty (p : String) : p ++ " " ≠ "" := by
  intro h
  have h1 := congrArg String.data h
  rw [String.data_append] at h1
  have h2 := congrArg List.length h1
  rw [List.length_append] at h2
  have h3 : (" " : String).data.length = 1 := rfl
  have h4 : ("" : String).data.length = 0 := rfl
  rw [h3, h4] at h2
  omega

theorem callTimes_eq (sensors : List String) (x : List Nat) (s : BatterySection) :
    ∀ (k : Nat) (p : String) (r : Result), HandleBatteryData sensors x s (some p) = .ok r →
      callTimes sensors x s k (some p) =
        .ok (some (if spec_byte x 1 = 0x03 ∧ p ≠ "" then
          p ++ String.mk (List.replicate k (Char.ofNat 32)) else p)) := by
  intro k
  induction k with
  | zero =>
    intro p r _
    have e : p ++ String.mk (List.replicate 0 (Char.ofNat 32)) = p := by
      apply String.ext
      simp [String.data_append]
    simp only [callTimes, e, ite_self]
  | succ k ih =>
    intro p r h
    have hb := (HandleBatteryData_ok_inv h).2.1
    simp only [callTimes, h, bind, Except.bind]
    by_cases hf : spec_byte x 1 = 0x03
    · by_cases hp : p = ""
      · subst hp
        have hb' : r.batteryName = some "" := by
          rw [hb, if_pos hf]
          rfl
        rw [hb']
        have := ih "" r h
        simpa [hf] using this
      · have hb' : r.batteryName = some (p ++ " ") := by
          rw [hb, if_pos hf]
          simp [prefixOf, hp]
        rw [hb']
        obtain ⟨r', h'⟩ :=
          @HandleBatteryData_ok_of_ok sensors sensors x s (some p) (some (p ++ " ")) r h
        rw [ih (p ++ " ") r' h']
        simp only [hf, hp, append_space_ne_empty, ne_eq, not_false_eq_true, and_self, if_true,
          append_spaces]
    · have hb' : r.batteryName = some p := by
        rw [hb, if_neg hf]
      rw [hb']
      have := ih p r h
      simpa [hf] using this

/-! ## The sections that publish nothing -/

theorem readBytes_ok (x : List Nat) :
    ∀ (n i : Nat), i + n ≤ x.length →
      readBytes x i n = .ok ((List.range n).map (fun j => spec_byte x (i + j))) := by
  intro n
  induction n with
  | zero => intro i _; rfl
  | succ n ih =>
    intro i h
    have h0 : i < x.length := by omega
    have h1 : i + 1 + n ≤ x.length := by omega
    simp only [readBytes, readByte_ok h0, ih (i + 1) h1, bind, Except.bind, pure, Except.pure,
      List.range_succ_eq_map, List.map_cons, List.map_map]
    refine congrArg Except.ok (congrArg₂ List.cons rfl ?_)
    apply List.map_congr_left
    intro j _
    show spec_byte x (i + 1 + j) = spec_byte x (i + (j + 1))
    exact congrArg (spec_byte x) (by omega)

theorem length_of_spec_byte_ne_zero {x : List Nat} {i : Nat} (h : spec_byte x i ≠ 0) :
    i < x.length := by
  by_contra hc
  apply h
  simp [spec_byte, List.getElem?_eq_none (Nat.le_of_not_lt hc)]

/-! ## The bytes a call depends on -/

theorem readByte_congr {x y : List Nat} {i : Nat} (h : x[i]? = y[i]?) :
    readByte x i = readByte y i := by
  simp only [readByte, h]

theorem readU16_congr {x y : List Nat} {i : Nat} (h0 : x[i]? = y[i]?)
    (h1 : x[i + 1]? = y[i + 1]?) : readU16 x i = readU16 y i := by
  simp only [readU16, readByte_congr h0, readByte_congr h1]

theorem readU32_congr {x y : List Nat} {i : Nat} (h0 : x[i]? = y[i]?)
    (h1 : x[i + 1]? = y[i + 1]?) (h2 : x[i + 2]? = y[i + 2]?) (h3 : x[i + 3]? = y[i + 3]?) :
    readU32 x i = readU32 y i := by
  simp only [readU32, readByte_congr h0, readByte_congr h1, readByte_congr h2,
    readByte_congr h3]

theorem readWords_congr {x y : List Nat} (h : ∀ i, 3 ≤ i → x[i]? = y[i]?) :
    ∀ (n off : Nat), 3 ≤ off → readWords x off n = readWords y off n := by
  intro n
  induction n with
  | zero => intro off _; rfl
  | succ n ih =>
    intro off ho
    simp only [readWords, readU16_congr (h off ho) (h (off + 1) (by omega)),
      ih (off + 2) (by omega)]

theorem readBytes_congr {x y : List Nat} (h : ∀ i, 3 ≤ i → x[i]? = y[i]?) :
    ∀ (n i : Nat), 3 ≤ i → readBytes x i n = readBytes y i n := by
  intro n
  induction n with
  | zero => intro i _; rfl
  | succ n ih =>
    intro i hi
    simp only [readBytes, readByte_congr (h i hi), ih (i + 1) (by omega)]

theorem HandleBatteryData_congr_except_2 (sensors : List String) {x y : List Nat}
    (s : BatterySection) (name : Option String) (h : ∀ i, i ≠ 2 → x[i]? = y[i]?) :
    HandleBatteryData sensors x s name = HandleBatteryData sensors y s name := by
  have h3 : ∀ i, 3 ≤ i → x[i]? = y[i]? := fun i hi => h i (by omega)
  have e0 := readByte_congr (h 0 (by omega))
  have e1 := readByte_congr (h 1 (by omega))
  have e3 := readU16_congr (h3 3 (by omega)) (h3 4 (by omega))
  have e5 := readU16_congr (h3 5 (by omega)) (h3 6 (by omega))
  have e7 := readU32_congr (h3 7 (by omega)) (h3 8 (by omega)) (h3 9 (by omega))
    (h3 10 (by omega))
  have e11 := readU32_congr (h3 11 (by omega)) (h3 12 (by omega)) (h3 13 (by omega))
    (h3 14 (by omega))
  have eW : ∀ n, readWords x 5 n = readWords y 5 n := fun n =>
    readWords_congr h3 n 5 (by omega)
  have eB := readBytes_congr h3 15 3 (by omega)
  simp only [HandleBatteryData, e0, e1, e3, e5, e7, e11, eW, eB]

theorem HandleBatteryData_battery_info_congr (sensors : List String) {x y : List Nat}
    (name : Option String) (h : ∀ i, i < 15 → x[i]? = y[i]?) :
    HandleBatteryData sensors x BatterySection.BATTERY_INFO name =
      HandleBatteryData sensors y BatterySection.BATTERY_INFO name := by
  have e0 := readByte_congr (h 0 (by omega))
  have e1 := readByte_congr (h 1 (by omega))
  have e3 := readU16_congr (h 3 (by omega)) (h 4 (by omega))
  have e5 := readU16_congr (h 5 (by omega)) (h 6 (by omega))
  have e7 := readU32_congr (h 7 (by omega)) (h 8 (by omega)) (h 9 (by omega))
    (h 10 (by omega))
  have e11 := readU32_congr (h 11 (by omega)) (h 12 (by omega)) (h 13 (by omega))
    (h 14 (by omega))
  simp only [HandleBatteryData, e0, e1, e3, e5, e7, e11, if_true]

theorem getElem?_of_take_eq {x y : List Nat} {n : Nat} (h : x.take n = y.take n) :
    ∀ i, i < n → x[i]? = y[i]? := by
  intro i hi
  have hx : (x.take n)[i]? = x[i]? := List.getElem?_take_of_lt hi
  have hy : (y.take n)[i]? = y[i]? := List.getElem?_take_of_lt hi
  rw [← hx, ← hy, h]

/-! ## The request builder -/

/-- C1: for every battery address below 256, every section and every word
count, `GetBatteryRequest` returns exactly 8 bytes, and the first six are the
address, `0x03`, the high and the low byte of the section address, and the
high and the low byte of the word count (both 16-bit values big-endian: the
two bytes are below 256 and `256 * high + low` is the value). -/
theorem GetBatteryRequest_layout (b : Nat) (s : BatterySection) (w : BatterySectionWords)
    (hb : b < 256) :
    (GetBatteryRequest b s w).length = 8 ∧
    (GetBatteryRequest b s w).take 6 =
      [b, 0x03, toU16 s.val / 256, toU16 s.val % 256, toU16 w.val / 256, toU16 w.val % 256] ∧
    toU16 s.val / 256 < 256 ∧ toU16 s.val % 256 < 256 ∧
    256 * (toU16 s.val / 256) + toU16 s.val % 256 = toU16 s.val ∧
    toU16 w.val / 256 < 256 ∧ toU16 w.val % 256 < 256 ∧
    256 * (toU16 w.val / 256) + toU16 w.val % 256 = toU16 w.val := by
  have hs := toU16_lt s.val
  have hw := toU16_lt w.val
  rw [GetBatteryRequest_eq, Nat.mod_eq_of_lt hb]
  refine ⟨rfl, rfl, ?_, ?_, ?_, ?_, ?_, ?_⟩ <;> omega

theorem GetBatteryRequest_layout_witness :
    (7 : Nat) < 256 ∧
    (GetBatteryRequest 7 BatterySection.CELL_TEMP_INFO ⟨17⟩).take 6 = [7, 3, 19, 153, 0, 17] :=
  ⟨by decide,
   (GetBatteryRequest_layout 7 BatterySection.CELL_TEMP_INFO ⟨17⟩ (by decide)).2.1⟩

/-- C2: in the frame `f` returned by `GetBatteryRequest`, the last two bytes
are the CRC-16 of the first six, low byte first:
`f[6] + 256 * f[7] = crc16 (f[0..6))`. -/
theorem GetBatteryRequest_checksum (b : Nat) (s : BatterySection) (w : BatterySectionWords) :
    (GetBatteryRequest b s w)[6]?.getD 0 + 256 * (GetBatteryRequest b s w)[7]?.getD 0 =
      crc16 ((GetBatteryRequest b s w).take 6) := by
  rw [GetBatteryRequest_eq]
  simp only [List.getElem?_cons_succ, List.getElem?_cons_zero, Option.getD_some, List.take_succ_cons,
    List.take_zero]
  omega

/-- C3: the Modbus CRC-16 that `GetBatteryRequest` calls: each shift step
halves the register and XORs `0xA001` in when the bit shifted out is 1, the
register starts at `0xFFFF` (the value for the empty buffer) and takes one
byte at a time; for `01 03 00 00 00 01` the result is `0x0A84`, which
`GetBatteryRequest` sends as `84 0A`. -/
theorem crc16_modbus :
    (∀ crc : Nat, crc16Bit crc = if crc % 2 = 1 then (crc / 2) ^^^ 0xA001 else crc / 2) ∧
    crc16 [] = 0xFFFF ∧
    (∀ (data : List Nat) (b : Nat), crc16 (data ++ [b]) = crc16Byte (crc16 data) b) ∧
    crc16 [0x01, 0x03, 0x00, 0x00, 0x00, 0x01] = 0x0A84 ∧
    GetBatteryRequest 1 ⟨0⟩ ⟨1⟩ = [0x01, 0x03, 0x00, 0x00, 0x00, 0x01, 0x84, 0x0A] := by
  refine ⟨?_, rfl, ?_, ?_, ?_⟩
  · intro crc
    have h1 : crc &&& 1 = crc % 2 := Nat.and_pow_two_sub_one_eq_mod crc 1
    have h2 : crc >>> 1 = crc / 2 := by
      rw [Nat.shiftRight_eq_div_pow, Nat.pow_one]
    unfold crc16Bit
    rw [h1, h2]
    by_cases h : crc % 2 = 1
    · simp [h]
    · have h0 : crc % 2 = 0 := by omega
      simp [h0]
  · intro data b
    simp [crc16, List.foldl_append]
  · simp [crc16, crc16Byte, crc16Bit]
  · rw [GetBatteryRequest_eq]
    simp [toU16, crc16, crc16Byte, crc16Bit]

/-- C4 as stated fails: a request for the cell voltages built without a word
count encodes the word count 6, not the 17 of that section. -/
theorem GetBatteryRequest_default_words_not_canonical :
    ((GetBatteryRequest.call 1 (some BatterySection.CELL_VOLT_INFO) none).drop 4).take 2 = [0, 6] ∧
    ((GetBatteryRequest.call 1 (some BatterySection.CELL_VOLT_INFO) none).drop 4).take 2 ≠
      [toU16 BatterySectionWords.CELL_VOLT_INFO.val / 256,
        toU16 BatterySectionWords.CELL_VOLT_INFO.val % 256] := by
  constructor
  · simp only [GetBatteryRequest.call, Option.getD_some, Option.getD_none, GetBatteryRequest_eq]
    simp [BatterySectionWords.BATTERY_INFO, toU16]
  · simp only [GetBatteryRequest.call, Option.getD_some, Option.getD_none, GetBatteryRequest_eq]
    simp [BatterySectionWords.BATTERY_INFO, BatterySectionWords.CELL_VOLT_INFO, toU16]

/-- C4, amended: when the caller passes no word count, bytes 4..5 of the frame
encode 6, the word count of the battery-info section, whatever the section
is (passed or left out); that is the canonical count of the section exactly
when it is the battery-info section, which is also the default section. -/
theorem GetBatteryRequest_default_words (b : Nat) (s : Option BatterySection) :
    ((GetBatteryRequest.call b s none).drop 4).take 2 = [0, 6] ∧
    (GetBatteryRequest.call b none none).take 6 = [b % 256, 0x03, 0x13, 0xB2, 0x00, 0x06] ∧
    toU16 BatterySectionWords.BATTERY_INFO.val = 6 := by
  refine ⟨?_, ?_, ?_⟩
  · simp only [GetBatteryRequest.call, Option.getD_none, GetBatteryRequest_eq]
    simp [BatterySectionWords.BATTERY_INFO, toU16]
  · simp only [GetBatteryRequest.call, Option.getD_none, GetBatteryRequest_eq]
    simp [BatterySectionWords.BATTERY_INFO, BatterySection.BATTERY_INFO, toU16]
  · simp [BatterySectionWords.BATTERY_INFO, toU16]

/-- C5: the register addresses of the five sections are 5000, 5017, 5042,
5122, 5223 and their word counts 17, 17, 6, 8, 1; a request built for a
section with its own word count carries both big-endian in bytes 2..5 (for
battery info `13 B2 00 06`). -/
theorem section_wire_constants (b : Nat) :
    (BatterySection.CELL_VOLT_INFO.val = 5000 ∧ BatterySectionWords.CELL_VOLT_INFO.val = 17 ∧
      ((GetBatteryRequest b BatterySection.CELL_VOLT_INFO
        BatterySectionWords.CELL_VOLT_INFO).drop 2).take 4 = [0x13, 0x88, 0x00, 0x11]) ∧
    (BatterySection.CELL_TEMP_INFO.val = 5017 ∧ BatterySectionWords.CELL_TEMP_INFO.val = 17 ∧
      ((GetBatteryRequest b BatterySection.CELL_TEMP_INFO
        BatterySectionWords.CELL_TEMP_INFO).drop 2).take 4 = [0x13, 0x99, 0x00, 0x11]) ∧
    (BatterySection.BATTERY_INFO.val = 5042 ∧ BatterySectionWords.BATTERY_INFO.val = 6 ∧
      ((GetBatteryRequest b BatterySection.BATTERY_INFO
        BatterySectionWords.BATTERY_INFO).drop 2).take 4 = [0x13, 0xB2, 0x00, 0x06]) ∧
    (BatterySection.DEVICE_INFO.val = 5122 ∧ BatterySectionWords.DEVICE_INFO.val = 8 ∧
      ((GetBatteryRequest b BatterySection.DEVICE_INFO
        BatterySectionWords.DEVICE_INFO).drop 2).take 4 = [0x14, 0x02, 0x00, 0x08]) ∧
    (BatterySection.DEVICE_ADDRESS.val = 5223 ∧ BatterySectionWords.DEVICE_ADDRESS.val = 1 ∧
      ((GetBatteryRequest b BatterySection.DEVICE_ADDRESS
        BatterySectionWords.DEVICE_ADDRESS).drop 2).take 4 = [0x14, 0x67, 0x00, 0x01]) := by
  simp only [GetBatteryRequest_eq]
  refine ⟨⟨rfl, rfl, ?_⟩, ⟨rfl, rfl, ?_⟩, ⟨rfl, rfl, ?_⟩, ⟨rfl, rfl, ?_⟩, ⟨rfl, rfl, ?_⟩⟩ <;>
    simp [BatterySection.CELL_VOLT_INFO, BatterySection.CELL_TEMP_INFO,
      BatterySection.BATTERY_INFO, BatterySection.DEVICE_INFO, BatterySection.DEVICE_ADDRESS,
      BatterySectionWords.CELL_VOLT_INFO, BatterySectionWords.CELL_TEMP_INFO,
      BatterySectionWords.BATTERY_INFO, BatterySectionWords.DEVICE_INFO,
      BatterySectionWords.DEVICE_ADDRESS, toU16]

/-! ## The response decoder -/

/-- C6: for every buffer that has a byte 1 different from `0x03`, for every
section, every name prefix and every set of sensors, `HandleBatteryData` stops
at the function check: it logs the unexpected function, publishes nothing
and leaves the caller's prefix as it was. -/
theorem HandleBatteryData_unexpected_function (sensors : List String) (x : List Nat)
    (s : BatterySection) (name : Option String)
    (hlen : 2 ≤ x.length) (hf : spec_byte x 1 ≠ 0x03) :
    HandleBatteryData sensors x s name =
      .ok ⟨[.unexpectedFunction (spec_byte x 1)], [], name⟩ := by
  have h0 : 0 < x.length := by omega
  have h1 : 1 < x.length := by omega
  simp [HandleBatteryData, readByte_ok h0, readByte_ok h1, bind, Except.bind,
    ModbusFunction.READ, hf]

theorem HandleBatteryData_unexpected_function_witness :
    HandleBatteryData ["1 Current"] [1, 0x83, 2, 0xC0, 0xF1] BatterySection.BATTERY_INFO none =
      .ok ⟨[.unexpectedFunction 0x83], [], none⟩ :=
  HandleBatteryData_unexpected_function ["1 Current"] [1, 0x83, 2, 0xC0, 0xF1]
    BatterySection.BATTERY_INFO none (by decide) (by decide)

/-- C7: for every battery-info response (byte 1 = `0x03`, at least 15
bytes, total capacity other than 0) `HandleBatteryData` logs no error and
hands the sensors exactly the five measurements Current = c/100,
Voltage = v/10, Present Capacity = p/1000, Total Capacity = t/1000 and
Charge Level = (p/1000)/(t/1000)*100, computed in `float` and all finite,
where c is bytes 3..4 as a signed, v bytes 5..6 as an unsigned big-endian
16-bit integer, p and t bytes 7..10 and 11..14 as unsigned big-endian 32-bit
integers; when each of the five names has its sensor, exactly these five are
published. For c = 1234, v = 520, p = 50000, t = 100000 the values are the
`float` nearest to 12.34, and 52, 50, 100, 50. -/
theorem HandleBatteryData_battery_info (sensors : List String) (x : List Nat)
    (name : Option String) (hlen : 15 ≤ x.length) (hf : spec_byte x 1 = 0x03)
    (ht : spec_u32be x 11 ≠ 0) :
    HandleBatteryData sensors x BatterySection.BATTERY_INFO name =
      .ok ⟨[],
        spec_deliverFirst sensors
          (spec_batteryInfo (c_str (prefixOf (spec_byte x 0) name)) (spec_i16be x 3)
            (spec_u16be x 5) (spec_u32be x 7) (spec_u32be x 11)),
        name.map (fun _ => prefixOf (spec_byte x 0) name)⟩ ∧
    (∀ m ∈ spec_batteryInfo (c_str (prefixOf (spec_byte x 0) name)) (spec_i16be x 3)
        (spec_u16be x 5) (spec_u32be x 7) (spec_u32be x 11), m.2.isFinite = true) ∧
    (∀ (namePrefix : String) (c : Int) (v p t : Nat),
      spec_deliverFirst ((spec_batteryInfo namePrefix c v p t).map Prod.fst)
        (spec_batteryInfo namePrefix c v p t) = spec_batteryInfo namePrefix c v p t ∧
      (spec_batteryInfo namePrefix c v p t).length = 5) ∧
    spec_batteryInfo "1 " 1234 520 50000 100000 =
      [("1 Current", F32.fin false 12939428 (-20)), ("1 Voltage", F32.fin false 13631488 (-18)),
        ("1 Present Capacity", F32.fin false 13107200 (-18)),
        ("1 Total Capacity", F32.fin false 13107200 (-17)),
        ("1 Charge Level", F32.fin false 13107200 (-18))] ∧
    |F32.toRat (F32.fin false 12939428 (-20)) - 1234 / 100| ≤ (2 : ℚ) ^ (-21 : ℤ) ∧
    F32.toRat (F32.fin false 13631488 (-18)) = 52 ∧
    F32.toRat (F32.fin false 13107200 (-18)) = 50 ∧
    F32.toRat (F32.fin false 13107200 (-17)) = 100 := by
  refine ⟨HandleBatteryData_battery_info_eq sensors x name hlen hf, ?_, ?_, ?_, ?_, ?_, ?_, ?_⟩
  · have hc := spec_i16be_range x 3
    have hv := spec_u16be_lt x 5
    exact spec_batteryInfo_finite _ (by omega) (by omega) (spec_u32be_lt x 7)
      (spec_u32be_lt x 11) ht
  · intro namePrefix c v p t
    exact ⟨spec_deliverFirst_batteryInfo_self namePrefix c v p t, rfl⟩
  · decide
  · norm_num [F32.toRat, abs_le]
  · norm_num [F32.toRat]
  · norm_num [F32.toRat]
  · norm_num [F32.toRat]

set_option maxRecDepth 100000 in
theorem HandleBatteryData_battery_info_witness :
    HandleBatteryData
      ["1 Current", "1 Voltage", "1 Present Capacity", "1 Total Capacity", "1 Charge Level"]
      [1, 3, 12, 0x04, 0xD2, 0x02, 0x08, 0, 0, 0xC3, 0x50, 0, 1, 0x86, 0xA0]
      BatterySection.BATTERY_INFO none =
    .ok ⟨[],
      [("1 Current", F32.fin false 12939428 (-20)), ("1 Voltage", F32.fin false 13631488 (-18)),
        ("1 Present Capacity", F32.fin false 13107200 (-18)),
        ("1 Total Capacity", F32.fin false 13107200 (-17)),
        ("1 Charge Level", F32.fin false 13107200 (-18))],
      none⟩ :=
  (HandleBatteryData_battery_info
    ["1 Current", "1 Voltage", "1 Present Capacity", "1 Total Capacity", "1 Charge Level"]
    [1, 3, 12, 0x04, 0xD2, 0x02, 0x08, 0, 0, 0xC3, 0x50, 0, 1, 0x86, 0xA0] none
    (by decide) (by decide) (by decide)).1.trans (by decide)

set_option maxRecDepth 100000 in
/-- C8 as stated fails: a battery-info response with total capacity 0 and
present capacity 1 makes `HandleBatteryData` log no error and publish plus
infinity as the Charge Level. -/
theorem HandleBatteryData_zero_capacity_publishes_infinity :
    spec_u32be [1, 3, 12, 0, 0, 0, 0, 0, 0, 0, 1, 0, 0, 0, 0] 11 = 0 ∧
    HandleBatteryData ["1 Charge Level"] [1, 3, 12, 0, 0, 0, 0, 0, 0, 0, 1, 0, 0, 0, 0]
      BatterySection.BATTERY_INFO none =
    .ok ⟨[], [("1 Charge Level", F32.inf false)], none⟩ ∧
    (F32.inf false).isFinite = false := by
  decide

/-- C8, amended: for every battery-info response (byte 1 = `0x03`, at least
15 bytes) whose total capacity field is 0, `HandleBatteryData` logs no error
and hands the sensors the five measurements as usual, with Total Capacity 0
and a Charge Level that is no finite number: NaN when the present capacity is
0 too, plus infinity otherwise. -/
theorem HandleBatteryData_zero_total_capacity (sensors : List String) (x : List Nat)
    (name : Option String) (hlen : 15 ≤ x.length) (hf : spec_byte x 1 = 0x03)
    (ht : spec_u32be x 11 = 0) :
    HandleBatteryData sensors x BatterySection.BATTERY_INFO name =
      .ok ⟨[],
        spec_deliverFirst sensors
          [ (c_str (prefixOf (spec_byte x 0) name) ++ "Current",
              F32.div (F32.ofInt (spec_i16be x 3)) (F32.ofNat 100)),
            (c_str (prefixOf (spec_byte x 0) name) ++ "Voltage",
              F32.div (F32.ofNat (spec_u16be x 5)) (F32.ofNat 10)),
            (c_str (prefixOf (spec_byte x 0) name) ++ "Present Capacity",
              F32.div (F32.ofNat (spec_u32be x 7)) (F32.ofNat 1000)),
            (c_str (prefixOf (spec_byte x 0) name) ++ "Total Capacity", F32.fin false 0 (-149)),
            (c_str (prefixOf (spec_byte x 0) name) ++ "Charge Level",
              if spec_u32be x 7 = 0 then F32.nan else F32.inf false) ],
        name.map (fun _ => prefixOf (spec_byte x 0) name)⟩ ∧
    F32.nan.isFinite = false ∧ (F32.inf false).isFinite = false := by
  refine ⟨?_, rfl, rfl⟩
  rw [HandleBatteryData_battery_info_eq sensors x name hlen hf, ht]
  have hT : F32.div (F32.ofNat 0) (F32.ofNat 1000) = F32.fin false 0 (-149) := by decide
  obtain ⟨h0, h1⟩ := chargeLevel_zero_total (spec_u32be_lt x 7)
  have hcl : F32.mul (F32.div (F32.div (F32.ofNat (spec_u32be x 7)) (F32.ofNat 1000))
      (F32.div (F32.ofNat 0) (F32.ofNat 1000))) (F32.ofNat 100) =
      if spec_u32be x 7 = 0 then F32.nan else F32.inf false := by
    split
    · rename_i h
      exact h0 h
    · rename_i h
      exact h1 h
  simp only [spec_batteryInfo]
  rw [hcl, hT]

set_option maxRecDepth 100000 in
theorem HandleBatteryData_zero_total_capacity_witness :
    HandleBatteryData ["7 Total Capacity", "7 Charge Level"]
      [7, 3, 12, 0, 0, 0, 0, 0, 0, 0, 0, 0, 0, 0, 0] BatterySection.BATTERY_INFO none =
    .ok ⟨[], [("7 Total Capacity", F32.fin false 0 (-149)), ("7 Charge Level", F32.nan)], none⟩ :=
  (HandleBatteryData_zero_total_capacity ["7 Total Capacity", "7 Charge Level"]
    [7, 3, 12, 0, 0, 0, 0, 0, 0, 0, 0, 0, 0, 0, 0] none
    (by decide) (by decide) (by decide)).1.trans (by decide)

/-- C9: for every cell-voltage response (byte 1 = `0x03`) that declares the
cell count N in bytes 3..4 and holds at least 5 + 2N bytes,
`HandleBatteryData` logs no error and hands the sensors exactly N
measurements, the i-th (from 0) named prefix + "Cell " + decimal(i+1) +
" Voltage" with the value r_i/10 in `float`, r_i being bytes 5+2i..6+2i as an
unsigned big-endian 16-bit integer; the names are distinct, and when each has
its sensor exactly these N measurements are published. For N = 3 and the raw values 350, 352,
349 the values are 35 and the `float` nearest to 35.2 and to 34.9. -/
theorem HandleBatteryData_cell_voltages (sensors : List String) (x : List Nat)
    (name : Option String) (hf : spec_byte x 1 = 0x03)
    (hlen : 5 + 2 * spec_u16be x 3 ≤ x.length) :
    HandleBatteryData sensors x BatterySection.CELL_VOLT_INFO name =
      .ok ⟨[],
        spec_deliverEach sensors
          (spec_cellVoltages (c_str (prefixOf (spec_byte x 0) name)) x (spec_u16be x 3)),
        name.map (fun _ => prefixOf (spec_byte x 0) name)⟩ ∧
    (spec_cellVoltages (c_str (prefixOf (spec_byte x 0) name)) x (spec_u16be x 3)).length =
      spec_u16be x 3 ∧
    (∀ (namePrefix : String) (y : List Nat) (n : Nat),
      spec_deliverEach ((spec_cellVoltages namePrefix y n).map Prod.fst)
        (spec_cellVoltages namePrefix y n) = spec_cellVoltages namePrefix y n) ∧
    spec_cellVoltages "1 " [1, 3, 8, 0, 3, 0x01, 0x5E, 0x01, 0x60, 0x01, 0x5D] 3 =
      [("1 Cell 1 Voltage", F32.fin false 9175040 (-18)),
        ("1 Cell 2 Voltage", F32.fin false 9227469 (-18)),
        ("1 Cell 3 Voltage", F32.fin false 9148826 (-18))] ∧
    F32.toRat (F32.fin false 9175040 (-18)) = 35 ∧
    |F32.toRat (F32.fin false 9227469 (-18)) - 352 / 10| ≤ (2 : ℚ) ^ (-19 : ℤ) ∧
    |F32.toRat (F32.fin false 9148826 (-18)) - 349 / 10| ≤ (2 : ℚ) ^ (-19 : ℤ) := by
  refine ⟨HandleBatteryData_cell_voltages_eq sensors x name hf hlen, ?_, ?_, ?_, ?_, ?_, ?_⟩
  · simp [spec_cellVoltages]
  · intro namePrefix y n
    exact spec_deliverEach_self _ (spec_cellVoltages_names_nodup namePrefix y n)
  · decide
  · norm_num [F32.toRat]
  · norm_num [F32.toRat, abs_le]
  · norm_num [F32.toRat, abs_le]

set_option maxRecDepth 100000 in
theorem HandleBatteryData_cell_voltages_witness :
    HandleBatteryData ["1 Cell 1 Voltage", "1 Cell 2 Voltage", "1 Cell 3 Voltage"]
      [1, 3, 8, 0, 3, 0x01, 0x5E, 0x01, 0x60, 0x01, 0x5D] BatterySection.CELL_VOLT_INFO none =
    .ok ⟨[],
      [("1 Cell 1 Voltage", F32.fin false 9175040 (-18)),
        ("1 Cell 2 Voltage", F32.fin false 9227469 (-18)),
        ("1 Cell 3 Voltage", F32.fin false 9148826 (-18))],
      none⟩ :=
  (HandleBatteryData_cell_voltages ["1 Cell 1 Voltage", "1 Cell 2 Voltage", "1 Cell 3 Voltage"]
    [1, 3, 8, 0, 3, 0x01, 0x5E, 0x01, 0x60, 0x01, 0x5D] none (by decide) (by decide)).1.trans
    (by decide)

/-- C10, at the failing input: a cell-voltage response that declares N = 3
and carries only 2 raw values (9 bytes) is not rejected: `HandleBatteryData`
goes on to read `x[9]`, one past the end of the buffer, whatever the sensors
and the prefix are. -/
theorem HandleBatteryData_truncated_cell_voltages (sensors : List String)
    (name : Option String) :
    ([1, 3, 6, 0, 3, 0x01, 0x5E, 0x01, 0x60] : List Nat).length = 9 ∧
    spec_u16be [1, 3, 6, 0, 3, 0x01, 0x5E, 0x01, 0x60] 3 = 3 ∧
    HandleBatteryData sensors [1, 3, 6, 0, 3, 0x01, 0x5E, 0x01, 0x60]
      BatterySection.CELL_VOLT_INFO name = .error 9 := by
  refine ⟨rfl, by decide, ?_⟩
  rfl

/-- C11, at failing inputs: buffers shorter than the minimum length of their
section are not rejected. `HandleBatteryData` reads `x[0]` of an empty buffer
and `x[1]` of a one-byte buffer for every section, and with byte 1 = `0x03`
it reads `x[4]` of a 4-byte buffer for the battery-info, cell-voltage,
cell-temperature and device-address sections, `x[14]` of a 14-byte
battery-info buffer and `x[16]` of a 16-byte device-info buffer: each time
an index equal to the length of the buffer. -/
theorem HandleBatteryData_short_buffer_overread (sensors : List String)
    (s : BatterySection) (name : Option String) :
    HandleBatteryData sensors [] s name = .error 0 ∧
    HandleBatteryData sensors [1] s name = .error 1 ∧
    HandleBatteryData sensors [1, 3, 12, 0x04] BatterySection.BATTERY_INFO name = .error 4 ∧
    HandleBatteryData sensors [1, 3, 12, 0x04, 0xD2, 0x02, 0x08, 0, 0, 0xC3, 0x50, 0, 1, 0x86]
      BatterySection.BATTERY_INFO name = .error 14 ∧
    HandleBatteryData sensors [1, 3, 8, 0] BatterySection.CELL_VOLT_INFO name = .error 4 ∧
    HandleBatteryData sensors [1, 3, 8, 0] BatterySection.CELL_TEMP_INFO name = .error 4 ∧
    HandleBatteryData sensors [1, 3, 2, 0] BatterySection.DEVICE_ADDRESS name = .error 4 ∧
    HandleBatteryData sensors [1, 3, 16, 82, 66, 84, 49, 48, 48, 76, 70, 80, 49, 50, 83, 45]
      BatterySection.DEVICE_INFO name = .error 16 :=
  ⟨rfl, rfl, rfl, rfl, rfl, rfl, rfl, rfl⟩

/-- C12: for every cell-temperature response (byte 1 = `0x03`) that declares
the sensor count N in bytes 3..4 and holds at least 5 + 2N bytes,
`HandleBatteryData` logs no error and hands the sensors exactly N
measurements, the i-th (from 0) named prefix + "Sensor " + decimal(i+1) +
" Temperature" with the value s_i/10 in `float`, s_i being bytes 5+2i..6+2i
as a signed big-endian 16-bit integer; the names are distinct, and when each
has its sensor exactly these N measurements are published. A raw word of
`0x8000` or more gives a negative temperature; `FF F6` gives -1. -/
theorem HandleBatteryData_cell_temperatures (sensors : List String) (x : List Nat)
    (name : Option String) (hf : spec_byte x 1 = 0x03)
    (hlen : 5 + 2 * spec_u16be x 3 ≤ x.length) :
    HandleBatteryData sensors x BatterySection.CELL_TEMP_INFO name =
      .ok ⟨[],
        spec_deliverEach sensors
          (spec_cellTemperatures (c_str (prefixOf (spec_byte x 0) name)) x (spec_u16be x 3)),
        name.map (fun _ => prefixOf (spec_byte x 0) name)⟩ ∧
    (spec_cellTemperatures (c_str (prefixOf (spec_byte x 0) name)) x (spec_u16be x 3)).length =
      spec_u16be x 3 ∧
    (∀ (namePrefix : String) (y : List Nat) (n : Nat),
      spec_deliverEach ((spec_cellTemperatures namePrefix y n).map Prod.fst)
        (spec_cellTemperatures namePrefix y n) = spec_cellTemperatures namePrefix y n) ∧
    (∀ (y : List Nat) (i : Nat), 0x8000 ≤ spec_u16be y (5 + 2 * i) →
      F32.toRat (F32.div (F32.ofInt (spec_i16be y (5 + 2 * i))) (F32.ofNat 10)) < 0) ∧
    spec_cellTemperatures "1 " [1, 3, 4, 0, 2, 0xFF, 0xF6, 0x00, 0xFA] 2 =
      [("1 Sensor 1 Temperature", F32.fin true 8388608 (-23)),
        ("1 Sensor 2 Temperature", F32.fin false 13107200 (-19))] ∧
    F32.toRat (F32.fin true 8388608 (-23)) = -1 ∧
    F32.toRat (F32.fin false 13107200 (-19)) = 25 := by
  refine ⟨HandleBatteryData_cell_temperatures_eq sensors x name hf hlen, ?_, ?_, ?_, ?_, ?_, ?_⟩
  · simp [spec_cellTemperatures]
  · intro namePrefix y n
    exact spec_deliverEach_self _ (spec_cellTemperatures_names_nodup namePrefix y n)
  · intro y i h
    exact temperature_negative y (5 + 2 * i) h
  · decide
  · norm_num [F32.toRat]
  · norm_num [F32.toRat]

set_option maxRecDepth 100000 in
theorem HandleBatteryData_cell_temperatures_witness :
    HandleBatteryData ["1 Sensor 1 Temperature", "1 Sensor 2 Temperature"]
      [1, 3, 4, 0, 2, 0xFF, 0xF6, 0x00, 0xFA] BatterySection.CELL_TEMP_INFO none =
    .ok ⟨[],
      [("1 Sensor 1 Temperature", F32.fin true 8388608 (-23)),
        ("1 Sensor 2 Temperature", F32.fin false 13107200 (-19))],
      none⟩ :=
  (HandleBatteryData_cell_temperatures ["1 Sensor 1 Temperature", "1 Sensor 2 Temperature"]
    [1, 3, 4, 0, 2, 0xFF, 0xF6, 0x00, 0xFA] none (by decide) (by decide)).1.trans (by decide)

set_option maxRecDepth 100000 in
/-- C13 as stated fails: with the non-empty prefix `a<NUL>b` supplied, the
prefix of the measurement names is `a`, not `a<NUL>b` followed by a space:
the sensor named `aCurrent` is the one published to. -/
theorem HandleBatteryData_prefix_cut_at_nul :
    ("a\x00b" : String) ≠ "" ∧
    c_str (prefixOf 1 (some "a\x00b")) = "a" ∧
    c_str (prefixOf 1 (some "a\x00b")) ≠ "a\x00b" ++ " " ∧
    HandleBatteryData ["a\x00b Current", "aCurrent"]
      [1, 3, 12, 0x04, 0xD2, 0x02, 0x08, 0, 0, 0xC3, 0x50, 0, 1, 0x86, 0xA0]
      BatterySection.BATTERY_INFO (some "a\x00b") =
    .ok ⟨[], [("aCurrent", F32.fin false 12939428 (-20))], some ("a\x00b" ++ " ")⟩ := by
  decide

/-- C13, amended: every measurement name that a call publishes starts with
the same prefix, which is: when no prefix is supplied, the decimal text of
byte 0 followed by one space (`"12 "` for byte 0 = 12); when a non-empty
prefix `p` is supplied, the characters of `p` followed by one space, cut off
before the first NUL character if `p` contains one, hence `p` followed by one
space for a `p` without NUL; when an empty prefix is supplied, the empty
string. -/
theorem HandleBatteryData_naming (sensors : List String) (x : List Nat)
    (s : BatterySection) (name : Option String) (r : Result)
    (h : HandleBatteryData sensors x s name = .ok r) :
    (∀ m ∈ r.published, ∃ rest, m.1 = c_str (prefixOf (spec_byte x 0) name) ++ rest) ∧
    (name = none →
      c_str (prefixOf (spec_byte x 0) name) = toString (spec_byte x 0) ++ " ") ∧
    (∀ p, name = some p → p ≠ "" →
      c_str (prefixOf (spec_byte x 0) name) = c_str (p ++ " ")) ∧
    (∀ p, name = some p → p ≠ "" → Char.ofNat 0 ∉ p.data →
      c_str (prefixOf (spec_byte x 0) name) = p ++ " ") ∧
    (name = some "" → c_str (prefixOf (spec_byte x 0) name) = "") ∧
    c_str (prefixOf 12 none) = "12 " := by
  refine ⟨(HandleBatteryData_ok_inv h).2.2, ?_, ?_, ?_, ?_, ?_⟩
  · intro hn
    subst hn
    exact c_str_of_no_nul (append_space_no_nul (toString_nat_no_nul _))
  · intro p hn hp
    subst hn
    simp only [prefixOf, hp, ne_eq, not_false_eq_true, if_true]
  · intro p hn hp hnul
    subst hn
    simp only [prefixOf, hp, ne_eq, not_false_eq_true, if_true]
    exact c_str_of_no_nul (append_space_no_nul hnul)
  · intro hn
    subst hn
    rfl
  · decide

set_option maxRecDepth 100000 in
theorem HandleBatteryData_naming_witness :
    HandleBatteryData ["12 Cell 1 Voltage"] [12, 3, 4, 0, 1, 0x01, 0x5E]
      BatterySection.CELL_VOLT_INFO none =
      .ok ⟨[], [("12 Cell 1 Voltage", F32.fin false 9175040 (-18))], none⟩ ∧
    c_str (prefixOf (spec_byte [12, 3, 4, 0, 1, 0x01, 0x5E] 0) none) =
      toString (spec_byte [12, 3, 4, 0, 1, 0x01, 0x5E] 0) ++ " " :=
  ⟨by decide,
    (HandleBatteryData_naming ["12 Cell 1 Voltage"] [12, 3, 4, 0, 1, 0x01, 0x5E]
      BatterySection.CELL_VOLT_INFO none
      ⟨[], [("12 Cell 1 Voltage", F32.fin false 9175040 (-18))], none⟩ (by decide)).2.1 rfl⟩

set_option maxRecDepth 100000 in
/-- C14 as stated fails: two calls in succession with the same battery-info
buffer and the same string object `"A"` do not publish the same pairs. The
first call publishes under the name `A Current` and leaves the string as
`"A "`, so the second one publishes under `A  Current` (two spaces). -/
theorem callTwice_differs :
    callTwice ["A Current", "A  Current"]
      [1, 3, 12, 0x04, 0xD2, 0x02, 0x08, 0, 0, 0xC3, 0x50, 0, 1, 0x86, 0xA0]
      BatterySection.BATTERY_INFO (some "A") =
    .ok (⟨[], [("A Current", F32.fin false 12939428 (-20))], some "A "⟩,
         ⟨[], [("A  Current", F32.fin false 12939428 (-20))], some "A  "⟩) ∧
    [("A Current", F32.fin false 12939428 (-20))] ≠
      [("A  Current", F32.fin false 12939428 (-20))] := by
  decide

/-- C14, amended: two calls in succession with the same buffer, the same
section and the same prefix argument have the same outcome, and so publish
the same (name, value) pairs, when no prefix string is passed, when the
string passed is empty, or when byte 1 is not `0x03`; with a non-empty string
object and byte 1 = `0x03`, the second call is a call with the prefix `p`
followed by a space. -/
theorem callTwice_same (sensors : List String) (x : List Nat) (s : BatterySection)
    (name : Option String)
    (hn : name = none ∨ name = some "" ∨ spec_byte x 1 ≠ 0x03) :
    callTwice sensors x s name =
      (HandleBatteryData sensors x s name).map (fun r => (r, r)) ∧
    (∀ p : String, p ≠ "" → spec_byte x 1 = 0x03 →
      callTwice sensors x s (some p) =
        (HandleBatteryData sensors x s (some p)).bind (fun r1 =>
          (HandleBatteryData sensors x s (some (p ++ " "))).map (fun r2 => (r1, r2)))) := by
  constructor
  · cases hr : HandleBatteryData sensors x s name with
    | error i => simp [callTwice, hr, bind, Except.bind, Except.map]
    | ok r =>
      have hb := HandleBatteryData_batteryName_unchanged hr hn
      simp [callTwice, hr, hb, bind, Except.bind, Except.map, pure, Except.pure]
  · intro p hp hf
    cases hr : HandleBatteryData sensors x s (some p) with
    | error i => simp [callTwice, hr, bind, Except.bind, Except.map]
    | ok r =>
      have hb : r.batteryName = some (p ++ " ") := by
        rw [(HandleBatteryData_ok_inv hr).2.1, if_pos hf]
        simp [prefixOf, hp]
      simp only [callTwice, hr, hb, bind, Except.bind, Except.map, pure, Except.pure]

set_option maxRecDepth 100000 in
theorem callTwice_same_witness :
    callTwice ["1 Cell 1 Voltage"] [1, 3, 4, 0, 1, 0x01, 0x5E] BatterySection.CELL_VOLT_INFO
      none =
    .ok (⟨[], [("1 Cell 1 Voltage", F32.fin false 9175040 (-18))], none⟩,
         ⟨[], [("1 Cell 1 Voltage", F32.fin false 9175040 (-18))], none⟩) :=
  (callTwice_same ["1 Cell 1 Voltage"] [1, 3, 4, 0, 1, 0x01, 0x5E]
    BatterySection.CELL_VOLT_INFO none (Or.inl rfl)).1.trans (by decide)

set_option maxRecDepth 100000 in
/-- C15 as stated fails: a device-address response is decoded, but no
measurement is produced for any sensor: with sensors named `1 Device Id` and
`Device Id` present, nothing is published. -/
theorem HandleBatteryData_device_address_publishes_nothing :
    HandleBatteryData ["1 Device Id", "Device Id"] [1, 3, 2, 0x00, 0x05]
      BatterySection.DEVICE_ADDRESS none =
    .ok ⟨[.deviceId 5], [], none⟩ := by
  decide

/-- C15, amended: for every device-address response (byte 1 = `0x03`, at
least 5 bytes) `HandleBatteryData` decodes exactly one value, the device id,
which is bytes 3..4 read as an unsigned big-endian 16-bit integer with no
scaling; it writes it to the debug log only and publishes no measurement to
any sensor. -/
theorem HandleBatteryData_device_address (sensors : List String) (x : List Nat)
    (name : Option String) (hlen : 5 ≤ x.length) (hf : spec_byte x 1 = 0x03) :
    HandleBatteryData sensors x BatterySection.DEVICE_ADDRESS name =
      .ok ⟨[.deviceId (spec_u16be x 3)], [],
        name.map (fun _ => prefixOf (spec_byte x 0) name)⟩ := by
  have h0 : 0 < x.length := by omega
  have h1 : 1 < x.length := by omega
  have h3 : 3 + 2 ≤ x.length := by omega
  have hs1 : ¬ BatterySection.DEVICE_ADDRESS = BatterySection.BATTERY_INFO := by decide
  have hs2 : ¬ BatterySection.DEVICE_ADDRESS = BatterySection.CELL_TEMP_INFO := by decide
  have hs3 : ¬ BatterySection.DEVICE_ADDRESS = BatterySection.CELL_VOLT_INFO := by decide
  have hs4 : ¬ BatterySection.DEVICE_ADDRESS = BatterySection.DEVICE_INFO := by decide
  simp only [HandleBatteryData, readByte_ok h0, readByte_ok h1, readU16_ok h3, bind,
    Except.bind, ModbusFunction.READ, hf, ne_eq, not_true_eq_false, if_false, if_true, hs1, hs2,
    hs3, hs4]

theorem HandleBatteryData_device_address_witness :
    HandleBatteryData ["1 Device Id"] [1, 3, 2, 0x01, 0x30] BatterySection.DEVICE_ADDRESS
      (some "") =
    .ok ⟨[.deviceId 304], [], some ""⟩ :=
  HandleBatteryData_device_address ["1 Device Id"] [1, 3, 2, 0x01, 0x30] (some "")
    (by decide) (by decide)

set_option maxRecDepth 100000 in
/-- C16 as stated fails: a device-info response of 17 bytes makes
`HandleBatteryData` read `x[17]`, past its end; with 18 bytes the model is
the 15 bytes at indices 3..17, trailing NULs included, and nothing is
published, not even to a sensor named `1 Device Model`. -/
theorem HandleBatteryData_device_info_reads_15 :
    HandleBatteryData ["1 Device Model"]
      [1, 3, 16, 82, 66, 84, 49, 48, 48, 76, 70, 80, 49, 50, 83, 0, 0]
      BatterySection.DEVICE_INFO none = .error 17 ∧
    HandleBatteryData ["1 Device Model"]
      [1, 3, 16, 82, 66, 84, 49, 48, 48, 76, 70, 80, 49, 50, 83, 0, 0, 77]
      BatterySection.DEVICE_INFO none =
    .ok ⟨[.deviceModel [82, 66, 84, 49, 48, 48, 76, 70, 80, 49, 50, 83, 0, 0, 77]], [],
      none⟩ := by
  decide

/-- C16, amended: for every device-info response (byte 1 = `0x03`, at least
18 bytes) `HandleBatteryData` reads exactly the 15 bytes at indices 3..17 as
the model, trims nothing, writes the model to the debug log only and
publishes no measurement to any sensor. -/
theorem HandleBatteryData_device_info (sensors : List String) (x : List Nat)
    (name : Option String) (hlen : 18 ≤ x.length) (hf : spec_byte x 1 = 0x03) :
    HandleBatteryData sensors x BatterySection.DEVICE_INFO name =
      .ok ⟨[.deviceModel ((List.range 15).map (fun j => spec_byte x (3 + j)))], [],
        name.map (fun _ => prefixOf (spec_byte x 0) name)⟩ := by
  have h0 : 0 < x.length := by omega
  have h1 : 1 < x.length := by omega
  have h3 : 3 + 15 ≤ x.length := by omega
  have hs1 : ¬ BatterySection.DEVICE_INFO = BatterySection.BATTERY_INFO := by decide
  have hs2 : ¬ BatterySection.DEVICE_INFO = BatterySection.CELL_TEMP_INFO := by decide
  have hs3 : ¬ BatterySection.DEVICE_INFO = BatterySection.CELL_VOLT_INFO := by decide
  simp only [HandleBatteryData, readByte_ok h0, readByte_ok h1, readBytes_ok x 15 3 h3, bind,
    Except.bind, ModbusFunction.READ, hf, ne_eq, not_true_eq_false, if_false, if_true, hs1, hs2,
    hs3]

set_option maxRecDepth 100000 in
theorem HandleBatteryData_device_info_witness :
    HandleBatteryData []
      [1, 3, 16, 82, 66, 84, 49, 48, 48, 76, 70, 80, 49, 50, 83, 0, 0, 0, 0, 0xAB, 0xCD]
      BatterySection.DEVICE_INFO none =
    .ok ⟨[.deviceModel [82, 66, 84, 49, 48, 48, 76, 70, 80, 49, 50, 83, 0, 0, 0]], [],
      none⟩ :=
  (HandleBatteryData_device_info []
    [1, 3, 16, 82, 66, 84, 49, 48, 48, 76, 70, 80, 49, 50, 83, 0, 0, 0, 0, 0xAB, 0xCD] none
    (by decide) (by decide)).trans (by decide)

/-- C17: for every response with byte 1 = `0x03` and every section value
other than the five known ones, `HandleBatteryData` logs the unknown section
and publishes nothing; it reads no byte after byte 1, so the buffer is not
decoded as any section. -/
theorem HandleBatteryData_unknown_section (sensors : List String) (x : List Nat)
    (s : BatterySection) (name : Option String) (hf : spec_byte x 1 = 0x03)
    (h1 : s ≠ BatterySection.CELL_VOLT_INFO) (h2 : s ≠ BatterySection.CELL_TEMP_INFO)
    (h3 : s ≠ BatterySection.BATTERY_INFO) (h4 : s ≠ BatterySection.DEVICE_INFO)
    (h5 : s ≠ BatterySection.DEVICE_ADDRESS) :
    HandleBatteryData sensors x s name =
      .ok ⟨[.unknownSection s.val], [],
        name.map (fun _ => prefixOf (spec_byte x 0) name)⟩ := by
  have hl1 : 1 < x.length := length_of_spec_byte_ne_zero (by omega)
  have hl0 : 0 < x.length := by omega
  simp only [HandleBatteryData, readByte_ok hl0, readByte_ok hl1, bind, Except.bind,
    ModbusFunction.READ, hf, ne_eq, not_true_eq_false, if_false, h1, h2, h3, h4, h5]

theorem HandleBatteryData_unknown_section_witness :
    HandleBatteryData ["1 Current"] [1, 3] ⟨5043⟩ none =
      .ok ⟨[.unknownSection 5043], [], none⟩ :=
  HandleBatteryData_unknown_section ["1 Current"] [1, 3] ⟨5043⟩ none (by decide) (by decide)
    (by decide) (by decide) (by decide) (by decide)

/-- C18: the decoder checks no trailing checksum: two battery-info buffers
that agree on bytes 0..14 have the same outcome, and so the same published
measurements, whatever follows from index 15 on (the lengths need not even
be equal). -/
theorem HandleBatteryData_ignores_trailer (sensors : List String) (x y : List Nat)
    (name : Option String) (h : x.take 15 = y.take 15) :
    HandleBatteryData sensors x BatterySection.BATTERY_INFO name =
      HandleBatteryData sensors y BatterySection.BATTERY_INFO name :=
  HandleBatteryData_battery_info_congr sensors name (getElem?_of_take_eq h)

set_option maxRecDepth 100000 in
theorem HandleBatteryData_ignores_trailer_witness :
    HandleBatteryData ["1 Voltage"]
      [1, 3, 12, 0x04, 0xD2, 0x02, 0x08, 0, 0, 0xC3, 0x50, 0, 1, 0x86, 0xA0, 0xDE, 0xAD]
      BatterySection.BATTERY_INFO none =
    HandleBatteryData ["1 Voltage"]
      [1, 3, 12, 0x04, 0xD2, 0x02, 0x08, 0, 0, 0xC3, 0x50, 0, 1, 0x86, 0xA0, 0x00, 0x00]
      BatterySection.BATTERY_INFO none :=
  HandleBatteryData_ignores_trailer ["1 Voltage"]
    [1, 3, 12, 0x04, 0xD2, 0x02, 0x08, 0, 0, 0xC3, 0x50, 0, 1, 0x86, 0xA0, 0xDE, 0xAD]
    [1, 3, 12, 0x04, 0xD2, 0x02, 0x08, 0, 0, 0xC3, 0x50, 0, 1, 0x86, 0xA0, 0x00, 0x00]
    none (by decide)

/-- C19: `HandleBatteryData` changes the string its caller passes: after a
call that returns, the string is its previous value with one space appended
when that value is not empty and byte 1 is `0x03`, for every section, and it
is unchanged when byte 1 is not `0x03` or the string is empty; so after `k`
calls with the same string object it has `k` more trailing spaces in the
first case and is unchanged in the second. -/
theorem HandleBatteryData_caller_string (sensors : List String) (x : List Nat)
    (s : BatterySection) (p : String) (r : Result)
    (h : HandleBatteryData sensors x s (some p) = .ok r) :
    r.batteryName = some (if spec_byte x 1 = 0x03 ∧ p ≠ "" then p ++ " " else p) ∧
    ∀ k : Nat, callTimes sensors x s k (some p) =
      .ok (some (if spec_byte x 1 = 0x03 ∧ p ≠ "" then
        p ++ String.mk (List.replicate k (Char.ofNat 32)) else p)) := by
  refine ⟨?_, fun k => callTimes_eq sensors x s k p r h⟩
  rw [(HandleBatteryData_ok_inv h).2.1]
  by_cases hf : spec_byte x 1 = 0x03
  · by_cases hp : p = ""
    · subst hp
      simp [hf, prefixOf]
    · simp [hf, hp, prefixOf]
  · simp [hf]

set_option maxRecDepth 100000 in
theorem HandleBatteryData_caller_string_witness :
    HandleBatteryData [] [1, 3, 2, 0x00, 0x05] BatterySection.DEVICE_ADDRESS (some "Bat") =
      .ok ⟨[.deviceId 5], [], some "Bat "⟩ ∧
    callTimes [] [1, 3, 2, 0x00, 0x05] BatterySection.DEVICE_ADDRESS 3 (some "Bat") =
      .ok (some "Bat   ") :=
  ⟨by decide,
    ((HandleBatteryData_caller_string [] [1, 3, 2, 0x00, 0x05] BatterySection.DEVICE_ADDRESS
      "Bat" ⟨[.deviceId 5], [], some "Bat "⟩ (by decide)).2 3).trans (by decide)⟩

/-- C20: byte 2 of a response never influences decoding: for every section,
two buffers that differ at most at index 2 have the same outcome, and so the
same published names and values. -/
theorem HandleBatteryData_ignores_byte_2 (sensors : List String) (x y : List Nat)
    (s : BatterySection) (name : Option String) (h : ∀ i, i ≠ 2 → x[i]? = y[i]?) :
    HandleBatteryData sensors x s name = HandleBatteryData sensors y s name :=
  HandleBatteryData_congr_except_2 sensors s name h

theorem HandleBatteryData_ignores_byte_2_witness :
    HandleBatteryData ["1 Cell 1 Voltage"] [1, 3, 4, 0, 1, 0x01, 0x5E]
      BatterySection.CELL_VOLT_INFO none =
    HandleBatteryData ["1 Cell 1 Voltage"] [1, 3, 0xFF, 0, 1, 0x01, 0x5E]
      BatterySection.CELL_VOLT_INFO none :=
  HandleBatteryData_ignores_byte_2 ["1 Cell 1 Voltage"] [1, 3, 4, 0, 1, 0x01, 0x5E]
    [1, 3, 0xFF, 0, 1, 0x01, 0x5E] BatterySection.CELL_VOLT_INFO none
    (fun i hi => by
      rcases i with _ | _ | _ | i
      · rfl
      · rfl
      · exact absurd rfl hi
      · rfl)

end Renogy
